import Mathlib

/-!
# Auction repository with automatic closing

A shallow embedding of `internal/infra/database/auction/create_auction.go`:
the record written to the store, `CreateAuction`, `UpdateAuctionStatus`,
the polling loop of `startAutoCloseRoutine` and the two configuration readers
`getAuctionDuration` and `getAuctionCheckInterval`.

Conventions of the embedding.

* `time.Time` is an integer count of nanoseconds since the Unix epoch and
  `time.Duration` an integer count of nanoseconds; `Add`, `After` and `Unix`
  are the standard library's operations on that reading.
* `os.Getenv` is a function from keys to values (the empty string for a key
  that is not set) and `time.ParseDuration` a function from strings to an
  optional duration; both are arguments of the definitions that use them.
* The Mongo collection is a list of records in insertion order. Every driver
  call takes a flag `fault` saying whether the call fails for a reason outside
  the data (connection, context).
* Calls to `logger` do not influence control flow or the store and are left out.
-/

namespace Leilao

/-! ## Time -/

/-- An instant (`time.Time`), in nanoseconds since the Unix epoch. -/
abbrev Time := Int

/-- A span of time (`time.Duration`), in nanoseconds. -/
abbrev Duration := Int

/-- The constant `time.Second`. -/
def Second : Duration := 1000000000

/-- The constant `time.Minute`. -/
def Minute : Duration := 60 * Second

/-- The method `Time.Add`. -/
def Time.Add (t : Time) (d : Duration) : Time := t + d

/-- The method `Time.After`; `Time.After t u` reads `t.After(u)`. -/
def Time.After (t u : Time) : Bool := decide (u < t)

/-- The method `Time.Unix`, the whole seconds elapsed since the epoch; the
division of integers rounds down for a positive divisor. -/
def Time.Unix (t : Time) : Int := t / Second

/-! ## Entities -/

/-- Modelled from the spec: the type `auction_entity.ProductCondition` is declared outside
the files read here; the spec gives "product-condition (enumerated: new, used)". -/
inductive ProductCondition where
  | New
  | Used
  deriving DecidableEq, Repr

/-- Modelled from the spec: the type `auction_entity.AuctionStatus` is declared outside the
files read here; the spec gives "status (enumerated: new → active → completed)". The sources
name `Active` and `Completed`. -/
inductive AuctionStatus where
  | New
  | Active
  | Completed
  deriving DecidableEq, Repr

/-- Modelled from the spec: the struct `auction_entity.Auction` is declared outside the files
read here; its fields are the ones `CreateAuction` reads, with the creation timestamp a
structured instant. -/
structure Auction where
  Id : String
  ProductName : String
  Category : String
  Description : String
  Condition : ProductCondition
  Status : AuctionStatus
  Timestamp : Time
  deriving DecidableEq, Repr

/-- The persisted record, `AuctionEntityMongo`. -/
structure AuctionEntityMongo where
  Id : String
  ProductName : String
  Category : String
  Description : String
  Condition : ProductCondition
  Status : AuctionStatus
  Timestamp : Int
  deriving DecidableEq, Repr

/-- Modelled from the spec: the type `internal_error.InternalError` is declared outside the
files read here; the spec gives an opaque "internal/storage error" kind carrying a
human-readable message. -/
structure InternalError where
  Message : String
  deriving DecidableEq, Repr

/-- The constructor `internal_error.NewInternalServerError`. -/
def NewInternalServerError (message : String) : InternalError := ⟨message⟩

/-! ## The store -/

/-- A failure reported by the store driver. -/
inductive StoreError where
  | unavailable
  | duplicateKey
  deriving DecidableEq, Repr

/-- The Mongo collection `auctions`: its documents, keyed by `Id`, in insertion order. -/
structure Collection where
  docs : List AuctionEntityMongo
  deriving DecidableEq, Repr

/-- The identifiers stored in a collection. -/
def Collection.keys (c : Collection) : List String := c.docs.map (fun d => d.Id)

/-- The driver call `InsertOne`: fails when the store is unavailable or the key is taken,
otherwise appends the document. -/
def Collection.InsertOne (c : Collection) (fault : Bool) (doc : AuctionEntityMongo) :
    Except StoreError Collection :=
  if fault then Except.error StoreError.unavailable
  else if doc.Id ∈ c.keys then Except.error StoreError.duplicateKey
  else Except.ok ⟨c.docs ++ [doc]⟩

/-- The update `{"$set": {"status": status}}` applied to the first document matching the
filter `{"_id": id}`. -/
def setStatus (id : String) (status : AuctionStatus) :
    List AuctionEntityMongo → List AuctionEntityMongo
  | [] => []
  | d :: ds =>
    if d.Id = id then { d with Status := status } :: ds
    else d :: setStatus id status ds

/-- The driver call `UpdateOne` with filter `{"_id": id}` and update
`{"$set": {"status": status}}`: fails when the store is unavailable; a filter that matches no
document is not a failure. -/
def Collection.UpdateOne (c : Collection) (fault : Bool) (id : String)
    (status : AuctionStatus) : Except StoreError Collection :=
  if fault then Except.error StoreError.unavailable
  else Except.ok ⟨setStatus id status c.docs⟩

/-- The lookup of a document by key. -/
def Collection.find (c : Collection) (id : String) : Option AuctionEntityMongo :=
  c.docs.find? (fun d => decide (d.Id = id))

/-! ## The repository -/

/-- The struct `AuctionRepository`. The field `mu` records whether the lock is held; a call
of `UpdateAuctionStatus` below is taken from the point it owns `mu` to the point it gives it
back, so `mu` is the same before and after. -/
structure AuctionRepository where
  Collection : Collection
  mu : Bool
  deriving DecidableEq, Repr

/-- The constructor `NewAuctionRepository`, over the collection `auctions` of the database. -/
def NewAuctionRepository (auctions : Collection) : AuctionRepository :=
  { Collection := auctions, mu := false }

/-- A goroutine started by `go ar.startAutoCloseRoutine(ctx, auctionId, timestamp)`. -/
structure Goroutine where
  auctionId : String
  timestamp : Time
  deriving DecidableEq, Repr

/-- The record `CreateAuction` builds from the entity (the composite literal
`auctionEntityMongo`). -/
def auctionEntityMongo (auctionEntity : Auction) : AuctionEntityMongo :=
  { Id := auctionEntity.Id
    ProductName := auctionEntity.ProductName
    Category := auctionEntity.Category
    Description := auctionEntity.Description
    Condition := auctionEntity.Condition
    Status := auctionEntity.Status
    Timestamp := Time.Unix auctionEntity.Timestamp }

/-- What a call of `CreateAuction` leaves behind: the returned error (`none` for `nil`), the
repository, and the goroutines it started. -/
structure CreateResult where
  err : Option InternalError
  ar : AuctionRepository
  spawned : List Goroutine
  deriving DecidableEq, Repr

/-- The method `AuctionRepository.CreateAuction`. -/
def CreateAuction (ar : AuctionRepository) (fault : Bool) (auctionEntity : Auction) :
    CreateResult :=
  match ar.Collection.InsertOne fault (auctionEntityMongo auctionEntity) with
  | Except.error _ =>
    { err := some (NewInternalServerError "Error trying to insert auction")
      ar := ar
      spawned := [] }
  | Except.ok c =>
    { err := none
      ar := { ar with Collection := c }
      spawned := [⟨auctionEntity.Id, auctionEntity.Timestamp⟩] }

/-- The method `AuctionRepository.UpdateAuctionStatus`, from the return of `ar.mu.Lock()` to
the deferred `ar.mu.Unlock()`: the returned error (`none` for `nil`) and the repository after
the store update. Taking and giving back `mu` are the steps of `Thread.step` below. -/
def UpdateAuctionStatus (ar : AuctionRepository) (fault : Bool) (id : String)
    (status : AuctionStatus) : Option InternalError × AuctionRepository :=
  match ar.Collection.UpdateOne fault id status with
  | Except.error _ =>
    (some (NewInternalServerError "Error trying to update auction status"), ar)
  | Except.ok c => (none, { ar with Collection := c })

/-! ## Configuration -/

/-- The function `getAuctionDuration`. -/
def getAuctionDuration (ParseDuration : String → Option Duration) (Getenv : String → String) :
    Duration :=
  match ParseDuration (Getenv "AUCTION_DURATION") with
  | none => Minute * 5
  | some duration => duration

/-- The function `getAuctionCheckInterval`. -/
def getAuctionCheckInterval (ParseDuration : String → Option Duration)
    (Getenv : String → String) : Duration :=
  match ParseDuration (Getenv "AUCTION_CHECK_INTERVAL") with
  | none => Minute * 1
  | some duration => duration

/-! ## The watcher -/

/-- A call of `UpdateAuctionStatus` made by some other caller of the repository. -/
structure StatusUpdate where
  id : String
  status : AuctionStatus
  fault : Bool
  deriving DecidableEq, Repr

/-- The repository after other callers' status updates, applied in order. -/
def applyOthers (ar : AuctionRepository) : List StatusUpdate → AuctionRepository
  | [] => ar
  | u :: us => applyOthers (UpdateAuctionStatus ar u.fault u.id u.status).2 us

/-- One receive from `ticker.C`: the status updates other callers completed since the
previous receive, the value `time.Now()` returns at the check, and whether a store call made
at this check fails. -/
structure Tick where
  others : List StatusUpdate
  now : Time
  fault : Bool
  deriving DecidableEq, Repr

/-- A call of `UpdateAuctionStatus` issued by the watcher: the reading of the clock at the
check that issued it, the arguments, and the returned error. -/
structure UpdateCall where
  time : Time
  id : String
  status : AuctionStatus
  err : Option InternalError
  deriving DecidableEq, Repr

/-- The state of a watcher after a finite number of ticks: the repository, the status updates
the watcher issued, the number of deadline checks it made, whether its loop has returned, and
whether the routine stopped in `time.NewTicker`. A watcher that has not returned is blocked
on the ticker's channel. -/
structure WatcherRun where
  ar : AuctionRepository
  calls : List UpdateCall
  checks : Nat
  returned : Bool
  panicked : Bool
  deriving DecidableEq, Repr

/-- The loop `for range ticker.C` of `startAutoCloseRoutine`, over the ticks received. -/
def autoCloseLoop (auctionId : String) (expirationTime : Time) :
    AuctionRepository → List Tick → WatcherRun
  | ar, [] => { ar := ar, calls := [], checks := 0, returned := false, panicked := false }
  | ar, t :: ticks =>
    let ar1 := applyOthers ar t.others
    if Time.After t.now expirationTime then
      let r := UpdateAuctionStatus ar1 t.fault auctionId AuctionStatus.Completed
      { ar := r.2
        calls := [⟨t.now, auctionId, AuctionStatus.Completed, r.1⟩]
        checks := 1
        returned := true
        panicked := false }
    else
      let run := autoCloseLoop auctionId expirationTime ar1 ticks
      { run with checks := run.checks + 1 }

/-- The method `AuctionRepository.startAutoCloseRoutine`, run over the ticks its ticker
delivers. `time.NewTicker` panics when the interval is not positive. -/
def startAutoCloseRoutine (ParseDuration : String → Option Duration)
    (Getenv : String → String) (ar : AuctionRepository) (auctionId : String)
    (timestamp : Time) (ticks : List Tick) : WatcherRun :=
  let duration := getAuctionDuration ParseDuration Getenv
  let expirationTime := Time.Add timestamp duration
  let checkInterval := getAuctionCheckInterval ParseDuration Getenv
  if checkInterval ≤ 0 then
    { ar := ar, calls := [], checks := 0, returned := false, panicked := true }
  else
    autoCloseLoop auctionId expirationTime ar ticks

/-- The ticks of a ticker started at `start` with interval `checkInterval`: tick `k`
(counted from `first`) is received at `start + k * checkInterval`, and the check it triggers
reads that instant from the clock. -/
def tickerTicks (start : Time) (checkInterval : Duration)
    (others : Nat → List StatusUpdate) (fault : Nat → Bool) (first : Nat) : Nat → List Tick
  | 0 => []
  | n + 1 =>
    { others := others first, now := start + (first : Int) * checkInterval,
      fault := fault first } ::
      tickerTicks start checkInterval others fault (first + 1) n

/-- The repository the watcher sees at the check that follows the ticks `pre`, none of which
found the deadline passed: only other callers have written to it. -/
def waitThrough (ar : AuctionRepository) : List Tick → AuctionRepository
  | [] => ar
  | t :: ticks => waitThrough (applyOthers ar t.others) ticks

/-! ## Concurrent calls

Several goroutines call the repository at once. A call of `UpdateAuctionStatus` takes three
steps: `ar.mu.Lock()` returns, the body runs the store update, the deferred `ar.mu.Unlock()`
runs and the call returns. A call of `CreateAuction` takes one step, its `InsertOne` (and the
`go` statement after it). -/

/-- A call made on the repository by one goroutine. -/
inductive Call where
  | update (id : String) (status : AuctionStatus) (fault : Bool)
  | create (auctionEntity : Auction) (fault : Bool)
  deriving DecidableEq, Repr

/-- Where a goroutine stands in its call: at its first statement (for an update, waiting in
`Lock`), owning `mu` before the store update, owning `mu` after the store update, or
returned with its result. -/
inductive Pc where
  | start
  | locked
  | stored (err : Option InternalError)
  | done (err : Option InternalError)
  deriving DecidableEq, Repr

/-- A goroutine: its call and where it stands. -/
structure Thread where
  call : Call
  pc : Pc
  deriving DecidableEq, Repr

/-- Whether the goroutine is between the return of `Lock` and the deferred `Unlock`. -/
def Thread.holdsLock (t : Thread) : Bool :=
  match t.call, t.pc with
  | Call.update _ _ _, Pc.locked => true
  | Call.update _ _ _, Pc.stored _ => true
  | _, _ => false

/-- The number of steps the goroutine has still to take. -/
def Thread.remaining (t : Thread) : Nat :=
  match t.call, t.pc with
  | Call.update _ _ _, Pc.start => 3
  | Call.update _ _ _, Pc.locked => 2
  | Call.update _ _ _, Pc.stored _ => 1
  | Call.create _ _, Pc.start => 1
  | _, _ => 0

/-- The next step of a goroutine on the repository, `none` when it cannot move: `Lock`
returns only when `mu` is free, and a call that has returned has no step left. -/
def Thread.step (ar : AuctionRepository) (t : Thread) :
    Option (AuctionRepository × Thread × List Goroutine) :=
  match t.call, t.pc with
  | Call.update _ _ _, Pc.start =>
    if ar.mu then none
    else some ({ ar with mu := true }, { t with pc := Pc.locked }, [])
  | Call.update id status fault, Pc.locked =>
    some ((UpdateAuctionStatus ar fault id status).2,
      { t with pc := Pc.stored (UpdateAuctionStatus ar fault id status).1 }, [])
  | Call.update _ _ _, Pc.stored err =>
    some ({ ar with mu := false }, { t with pc := Pc.done err }, [])
  | Call.create auctionEntity fault, Pc.start =>
    some ((CreateAuction ar fault auctionEntity).ar,
      { t with pc := Pc.done (CreateAuction ar fault auctionEntity).err },
      (CreateAuction ar fault auctionEntity).spawned)
  | _, _ => none

/-- The repository, the goroutines calling it, and the watchers started so far. -/
structure System where
  ar : AuctionRepository
  threads : List Thread
  spawned : List Goroutine
  deriving DecidableEq, Repr

/-- The system in which every call is about to begin, on a fresh repository over the given
collection. -/
def System.init (auctions : Collection) (calls : List Call) : System :=
  { ar := NewAuctionRepository auctions
    threads := calls.map (fun c => ⟨c, Pc.start⟩)
    spawned := [] }

/-- The system after goroutine `i` takes its next step, `none` when it cannot move. -/
def System.step (s : System) (i : Nat) : Option System :=
  match s.threads[i]? with
  | none => none
  | some t =>
    match t.step s.ar with
    | none => none
    | some r =>
      some { ar := r.1, threads := s.threads.set i r.2.1, spawned := s.spawned ++ r.2.2 }

/-- The system after the scheduler has picked the goroutines of `schedule` in turn; a pick of
a goroutine that cannot move leaves the system as it is. -/
def System.run (s : System) : List Nat → System
  | [] => s
  | i :: schedule =>
    match s.step i with
    | none => System.run s schedule
    | some s2 => System.run s2 schedule

/-- The number of goroutines that own `mu`. -/
def holders : List Thread → Nat
  | [] => 0
  | t :: ts => (if t.holdsLock then 1 else 0) + holders ts

/-- The number of steps still to be taken by all goroutines together. -/
def remaining : List Thread → Nat
  | [] => 0
  | t :: ts => t.remaining + remaining ts

/-- The number of picks of `schedule` at which the picked goroutine moved. -/
def System.moves (s : System) : List Nat → Nat
  | [] => 0
  | i :: schedule =>
    match s.step i with
    | none => System.moves s schedule
    | some s2 => System.moves s2 schedule + 1

/-- The lock is held exactly when one goroutine owns it. -/
def System.lockInv (s : System) : Prop :=
  holders s.threads = if s.ar.mu then 1 else 0

/-- The state of the record `d0` keyed by `id` while goroutine `j` runs the one call that
updates `id`, with a store that does not fail: untouched until the call's store update, and
with the new status, the call's error being `nil`, from then on; no other goroutine updates
`id`. -/
def System.appliedInv (j : Nat) (id : String) (status : AuctionStatus)
    (d0 : AuctionEntityMongo) (s : System) : Prop :=
  (∃ pc, s.threads[j]? = some ⟨Call.update id status false, pc⟩ ∧
    (((pc = Pc.start ∨ pc = Pc.locked) ∧ s.ar.Collection.find id = some d0) ∨
      ((pc = Pc.stored none ∨ pc = Pc.done none) ∧
        s.ar.Collection.find id = some { d0 with Status := status }))) ∧
  ∀ (i : Nat) (t : Thread), i ≠ j → s.threads[i]? = some t →
    ∀ id2 status2 fault2, t.call = Call.update id2 status2 fault2 → id2 ≠ id

/-! ## Sample values

The values of the repository's test `TestAutoCloseIntegration`: a duration of two seconds and
a check interval of half a second. -/

/-- A parser that knows the two strings of the test and rejects everything else. -/
def sampleParseDuration (s : String) : Option Duration :=
  if s = "2s" then some (2 * Second)
  else if s = "500ms" then some 500000000
  else none

/-- The environment of the test. -/
def sampleGetenv (key : String) : String :=
  if key = "AUCTION_DURATION" then "2s"
  else if key = "AUCTION_CHECK_INTERVAL" then "500ms"
  else ""

/-- An environment with neither key set. -/
def emptyGetenv (_ : String) : String := ""

/-- An auction entity created 7.1 seconds after the epoch. -/
def sampleAuction : Auction :=
  { Id := "a1", ProductName := "Test Product", Category := "Test Category",
    Description := "Test Description", Condition := ProductCondition.New,
    Status := AuctionStatus.Active, Timestamp := 7100000000 }

/-- A repository holding the sample auction and one more. -/
def sampleRepository : AuctionRepository :=
  NewAuctionRepository
    ⟨[auctionEntityMongo sampleAuction,
      { Id := "a2", ProductName := "Other", Category := "Test Category",
        Description := "Other Description", Condition := ProductCondition.Used,
        Status := AuctionStatus.Active, Timestamp := 3 }]⟩

/-- Six ticks of a ticker started with the sample auction, half a second apart; before the
second one another caller completes `a2` and reopens `a1`. -/
def sampleTicks (fault : Bool) : List Tick :=
  tickerTicks 7100000000 500000000
    (fun k => if k = 2 then [⟨"a2", AuctionStatus.Completed, false⟩,
      ⟨"a1", AuctionStatus.Active, false⟩] else [])
    (fun _ => fault) 1 6

/-- Three concurrent calls: complete `a1`, complete `a2`, create `a3`. -/
def sampleCalls : List Call :=
  [Call.update "a1" AuctionStatus.Completed false,
    Call.update "a2" AuctionStatus.Completed false,
    Call.create { sampleAuction with Id := "a3" } false]

/-- A parser that knows a negative duration, the zero duration and the test's interval, and
rejects everything else. -/
def signedParseDuration (s : String) : Option Duration :=
  if s = "-1s" then some (-1000000000)
  else if s = "0s" then some 0
  else if s = "500ms" then some 500000000
  else none

/-- An environment whose duration is negative: the deadline of an auction lies before its
creation. -/
def expiredGetenv (key : String) : String :=
  if key = "AUCTION_DURATION" then "-1s"
  else if key = "AUCTION_CHECK_INTERVAL" then "500ms"
  else ""

/-- An environment whose check interval is negative. -/
def negativeIntervalGetenv (key : String) : String :=
  if key = "AUCTION_CHECK_INTERVAL" then "-1s" else ""

/-- An environment whose check interval is zero. -/
def zeroIntervalGetenv (key : String) : String :=
  if key = "AUCTION_CHECK_INTERVAL" then "0s" else ""

end Leilao

namespace Leilao

/-! ## Facts about the polling loop -/

theorem Time.After_iff (t u : Time) : Time.After t u = true ↔ u < t := by
  simp [Time.After]

theorem UpdateAuctionStatus_err (ar : AuctionRepository) (fault : Bool) (id : String)
    (status : AuctionStatus) :
    (UpdateAuctionStatus ar fault id status).1 =
      if fault then some (NewInternalServerError "Error trying to update auction status")
      else none := by
  cases fault <;> simp [UpdateAuctionStatus, Collection.UpdateOne]

theorem autoCloseLoop_panicked (auctionId : String) (expirationTime : Time)
    (ar : AuctionRepository) (ticks : List Tick) :
    (autoCloseLoop auctionId expirationTime ar ticks).panicked = false := by
  induction ticks generalizing ar with
  | nil => simp [autoCloseLoop]
  | cons t ticks ih =>
    by_cases h : Time.After t.now expirationTime = true
    · simp [autoCloseLoop, h]
    · simp [autoCloseLoop, h, ih]

theorem autoCloseLoop_calls (auctionId : String) (expirationTime : Time)
    (ar : AuctionRepository) (ticks : List Tick) :
    ∀ c ∈ (autoCloseLoop auctionId expirationTime ar ticks).calls,
      c.id = auctionId ∧ c.status = AuctionStatus.Completed ∧
        ∃ t ∈ ticks, t.now = c.time ∧ expirationTime < t.now := by
  induction ticks generalizing ar with
  | nil => simp [autoCloseLoop]
  | cons t ticks ih =>
    by_cases h : Time.After t.now expirationTime = true
    · have h2 := (Time.After_iff _ _).1 h
      simp [autoCloseLoop, h, h2]
    · intro c hc
      simp only [autoCloseLoop, h] at hc
      obtain ⟨h1, h2, u, hu, h3⟩ := ih _ c hc
      exact ⟨h1, h2, u, List.mem_cons_of_mem _ hu, h3⟩

theorem autoCloseLoop_calls_length (auctionId : String) (expirationTime : Time)
    (ar : AuctionRepository) (ticks : List Tick) :
    (autoCloseLoop auctionId expirationTime ar ticks).calls.length =
      if (autoCloseLoop auctionId expirationTime ar ticks).returned then 1 else 0 := by
  induction ticks generalizing ar with
  | nil => simp [autoCloseLoop]
  | cons t ticks ih =>
    by_cases h : Time.After t.now expirationTime = true
    · simp [autoCloseLoop, h]
    · simp only [autoCloseLoop, h]
      exact ih _

theorem autoCloseLoop_returned (auctionId : String) (expirationTime : Time)
    (ar : AuctionRepository) (ticks : List Tick) :
    (autoCloseLoop auctionId expirationTime ar ticks).returned = true ↔
      ∃ t ∈ ticks, expirationTime < t.now := by
  induction ticks generalizing ar with
  | nil => simp [autoCloseLoop]
  | cons t ticks ih =>
    by_cases h : Time.After t.now expirationTime = true
    · have h2 := (Time.After_iff _ _).1 h
      simp [autoCloseLoop, h, h2]
    · have h2 : ¬ expirationTime < t.now := fun h3 => h ((Time.After_iff _ _).2 h3)
      simp only [autoCloseLoop, h]
      simp [ih, h2]

theorem autoCloseLoop_first_expired (auctionId : String) (expirationTime : Time)
    (ar : AuctionRepository) (pre : List Tick) (t : Tick) (rest : List Tick)
    (hpre : ∀ p ∈ pre, p.now ≤ expirationTime) (ht : expirationTime < t.now) :
    autoCloseLoop auctionId expirationTime ar (pre ++ t :: rest) =
      { ar := (UpdateAuctionStatus (applyOthers (waitThrough ar pre) t.others) t.fault
                auctionId AuctionStatus.Completed).2
        calls := [⟨t.now, auctionId, AuctionStatus.Completed,
          (UpdateAuctionStatus (applyOthers (waitThrough ar pre) t.others) t.fault
                auctionId AuctionStatus.Completed).1⟩]
        checks := pre.length + 1
        returned := true
        panicked := false } := by
  induction pre generalizing ar with
  | nil =>
    have h := (Time.After_iff t.now expirationTime).2 ht
    simp [autoCloseLoop, h, waitThrough]
  | cons p pre ih =>
    have hp : ¬ Time.After p.now expirationTime = true := by
      rw [Time.After_iff]
      exact not_lt.2 (hpre p (List.mem_cons_self _ _))
    have ih2 := ih (applyOthers ar p.others) (fun q hq => hpre q (List.mem_cons_of_mem _ hq))
    simp only [List.cons_append, autoCloseLoop, hp, waitThrough]
    simp [ih2]

theorem autoCloseLoop_calls_length_of_clock (auctionId : String) (expirationTime : Time)
    (ar ar2 : AuctionRepository) (ticks ticks2 : List Tick)
    (h : ticks2.map (fun t => t.now) = ticks.map (fun t => t.now)) :
    (autoCloseLoop auctionId expirationTime ar2 ticks2).calls.length =
      (autoCloseLoop auctionId expirationTime ar ticks).calls.length := by
  have e : ∀ (a : AuctionRepository) (l : List Tick),
      ((autoCloseLoop auctionId expirationTime a l).returned = true ↔
        ∃ n ∈ l.map (fun t => t.now), expirationTime < n) := by
    intro a l
    rw [autoCloseLoop_returned]
    simp
  have h1 := e ar ticks
  have h2 := e ar2 ticks2
  rw [h] at h2
  have h3 : (autoCloseLoop auctionId expirationTime ar2 ticks2).returned =
      (autoCloseLoop auctionId expirationTime ar ticks).returned := by
    rw [Bool.eq_iff_iff, h1, h2]
  rw [autoCloseLoop_calls_length, autoCloseLoop_calls_length, h3]

/-! ## Facts about the store -/

theorem setStatus_of_not_mem (id : String) (status : AuctionStatus)
    (docs : List AuctionEntityMongo) (h : id ∉ docs.map (fun d => d.Id)) :
    setStatus id status docs = docs := by
  induction docs with
  | nil => rfl
  | cons d ds ih =>
    simp only [List.map_cons, List.mem_cons, not_or] at h
    have hd : ¬ d.Id = id := fun e => h.1 e.symm
    simp [setStatus, hd, ih h.2]

theorem map_setStatus_of_not_mem (id : String) (status : AuctionStatus)
    (docs : List AuctionEntityMongo) (h : id ∉ docs.map (fun d => d.Id)) :
    docs.map (fun d => if d.Id = id then { d with Status := status } else d) = docs := by
  induction docs with
  | nil => rfl
  | cons d ds ih =>
    simp only [List.map_cons, List.mem_cons, not_or] at h
    have hd : ¬ d.Id = id := fun e => h.1 e.symm
    simp [hd, ih h.2]

theorem setStatus_eq_map (id : String) (status : AuctionStatus)
    (docs : List AuctionEntityMongo) (h : (docs.map (fun d => d.Id)).Nodup) :
    setStatus id status docs =
      docs.map (fun d => if d.Id = id then { d with Status := status } else d) := by
  induction docs with
  | nil => rfl
  | cons d ds ih =>
    simp only [List.map_cons, List.nodup_cons] at h
    by_cases hd : d.Id = id
    · have hn : id ∉ ds.map (fun d => d.Id) := hd ▸ h.1
      simp [setStatus, hd, map_setStatus_of_not_mem id status ds hn]
    · simp [setStatus, hd, ih h.2]

theorem setStatus_keys (id : String) (status : AuctionStatus)
    (docs : List AuctionEntityMongo) :
    (setStatus id status docs).map (fun d => d.Id) = docs.map (fun d => d.Id) := by
  induction docs with
  | nil => rfl
  | cons d ds ih =>
    by_cases hd : d.Id = id
    · simp [setStatus, hd]
    · simp [setStatus, hd, ih]

/-! ## Facts about a regular ticker -/

theorem autoCloseLoop_tickerTicks (auctionId : String) (expirationTime start : Time)
    (checkInterval : Duration) (others : Nat → List StatusUpdate) (fault : Nat → Bool)
    (n : Nat) :
    ∀ (first : Nat) (ar : AuctionRepository),
      start + (first : Int) * checkInterval - checkInterval ≤ expirationTime →
      expirationTime < start + ((first + n : Nat) : Int) * checkInterval - checkInterval →
      (autoCloseLoop auctionId expirationTime ar
          (tickerTicks start checkInterval others fault first n)).returned = true ∧
      ∀ c ∈ (autoCloseLoop auctionId expirationTime ar
          (tickerTicks start checkInterval others fault first n)).calls,
        expirationTime < c.time ∧ c.time ≤ expirationTime + checkInterval ∧
          ∃ k : Nat, first ≤ k ∧ k < first + n ∧ c.time = start + (k : Int) * checkInterval := by
  induction n with
  | zero =>
    intro first ar h1 h2
    simp only [Nat.add_zero] at h2
    exact absurd h2 (not_lt.2 h1)
  | succ n ih =>
    intro first ar h1 h2
    by_cases h : Time.After (start + (first : Int) * checkInterval) expirationTime = true
    · have h3 := (Time.After_iff _ _).1 h
      simp only [tickerTicks, autoCloseLoop, h, if_true, List.mem_singleton, true_and]
      intro c hc
      subst hc
      have h6 : start + (first : Int) * checkInterval ≤ expirationTime + checkInterval := by
        linarith
      exact ⟨h3, h6, first, le_refl _, by omega, rfl⟩
    · have h3 : start + (first : Int) * checkInterval ≤ expirationTime :=
        not_lt.1 (fun h4 => h ((Time.After_iff _ _).2 h4))
      have h4 : start + ((first + 1 : Nat) : Int) * checkInterval - checkInterval
          ≤ expirationTime := by
        push_cast
        linarith
      have h5 : expirationTime <
          start + ((first + 1 + n : Nat) : Int) * checkInterval - checkInterval := by
        have e : first + 1 + n = first + (n + 1) := by omega
        rw [e]
        exact h2
      obtain ⟨r1, r2⟩ := ih (first + 1) (applyOthers ar (others first)) h4 h5
      simp only [tickerTicks, autoCloseLoop, h]
      refine ⟨r1, ?_⟩
      intro c hc
      obtain ⟨c1, c2, k, k1, k2, k3⟩ := r2 c hc
      exact ⟨c1, c2, k, by omega, by omega, k3⟩

/-! ## Facts about concurrent calls -/

theorem UpdateAuctionStatus_mu (ar : AuctionRepository) (fault : Bool) (id : String)
    (status : AuctionStatus) : (UpdateAuctionStatus ar fault id status).2.mu = ar.mu := by
  cases fault <;> simp [UpdateAuctionStatus, Collection.UpdateOne]

theorem CreateAuction_mu (ar : AuctionRepository) (fault : Bool) (auctionEntity : Auction) :
    (CreateAuction ar fault auctionEntity).ar.mu = ar.mu := by
  unfold CreateAuction
  split <;> rfl

theorem holders_set (l : List Thread) (i : Nat) (t t2 : Thread) (h : l[i]? = some t) :
    holders (l.set i t2) + (if t.holdsLock then 1 else 0) =
      holders l + (if t2.holdsLock then 1 else 0) := by
  induction l generalizing i with
  | nil => simp at h
  | cons a l ih =>
    cases i with
    | zero =>
      simp only [List.getElem?_cons_zero, Option.some.injEq] at h
      subst h
      simp only [List.set_cons_zero, holders]
      omega
    | succ i =>
      simp only [List.getElem?_cons_succ] at h
      have := ih i h
      simp only [List.set_cons_succ, holders]
      omega

theorem remaining_set (l : List Thread) (i : Nat) (t t2 : Thread) (h : l[i]? = some t) :
    remaining (l.set i t2) + t.remaining = remaining l + t2.remaining := by
  induction l generalizing i with
  | nil => simp at h
  | cons a l ih =>
    cases i with
    | zero =>
      simp only [List.getElem?_cons_zero, Option.some.injEq] at h
      subst h
      simp only [List.set_cons_zero, remaining]
      omega
    | succ i =>
      simp only [List.getElem?_cons_succ] at h
      have := ih i h
      simp only [List.set_cons_succ, remaining]
      omega

theorem holders_pos_of_mem (l : List Thread) (i : Nat) (t : Thread) (h : l[i]? = some t)
    (ht : t.holdsLock = true) : 0 < holders l := by
  induction l generalizing i with
  | nil => simp at h
  | cons a l ih =>
    cases i with
    | zero =>
      simp only [List.getElem?_cons_zero, Option.some.injEq] at h
      subst h
      simp [holders, ht]
    | succ i =>
      simp only [List.getElem?_cons_succ] at h
      have := ih i h
      simp only [holders]
      omega

theorem exists_holder (l : List Thread) (h : 0 < holders l) :
    ∃ (i : Nat) (t : Thread), l[i]? = some t ∧ t.holdsLock = true := by
  induction l with
  | nil => simp [holders] at h
  | cons a l ih =>
    by_cases ha : a.holdsLock = true
    · exact ⟨0, a, List.getElem?_cons_zero, ha⟩
    · simp only [holders, ha] at h
      obtain ⟨i, t, h1, h2⟩ := ih (by simpa using h)
      exact ⟨i + 1, t, by rw [List.getElem?_cons_succ]; exact h1, h2⟩

theorem exists_remaining (l : List Thread) (h : 0 < remaining l) :
    ∃ (i : Nat) (t : Thread), l[i]? = some t ∧ 0 < t.remaining := by
  induction l with
  | nil => simp [remaining] at h
  | cons a l ih =>
    by_cases ha : 0 < a.remaining
    · exact ⟨0, a, List.getElem?_cons_zero, ha⟩
    · simp only [remaining] at h
      obtain ⟨i, t, h1, h2⟩ := ih (by omega)
      exact ⟨i + 1, t, by rw [List.getElem?_cons_succ]; exact h1, h2⟩

theorem Thread.step_spec (ar : AuctionRepository) (t : Thread)
    (r : AuctionRepository × Thread × List Goroutine) (h : t.step ar = some r) :
    r.2.1.call = t.call ∧ r.2.1.remaining + 1 = t.remaining ∧
      ((t.holdsLock = true → ar.mu = true) →
        (if r.1.mu then 1 else 0) + (if t.holdsLock then 1 else 0) =
          (if ar.mu then 1 else 0) + (if r.2.1.holdsLock then 1 else 0)) := by
  obtain ⟨call, pc⟩ := t
  cases call with
  | update id status fault =>
    cases pc with
    | start =>
      by_cases hm : ar.mu = true
      · simp [Thread.step, hm] at h
      · simp only [Thread.step, hm, Bool.false_eq_true, if_false, Option.some.injEq] at h
        subst h
        simp [Thread.remaining, Thread.holdsLock, hm]
    | locked =>
      simp only [Thread.step, Option.some.injEq] at h
      subst h
      simp [Thread.remaining, Thread.holdsLock, UpdateAuctionStatus_mu]
    | stored err =>
      simp only [Thread.step, Option.some.injEq] at h
      subst h
      simp only [Thread.remaining, Thread.holdsLock, true_and]
      intro hm
      simp [hm]
    | done err => simp [Thread.step] at h
  | create auctionEntity fault =>
    cases pc with
    | start =>
      simp only [Thread.step, Option.some.injEq] at h
      subst h
      simp [Thread.remaining, Thread.holdsLock, CreateAuction_mu]
    | locked => simp [Thread.step] at h
    | stored err => simp [Thread.step] at h
    | done err => simp [Thread.step] at h

theorem System.step_some (s s2 : System) (i : Nat) (h : s.step i = some s2) :
    ∃ t r, s.threads[i]? = some t ∧ t.step s.ar = some r ∧
      s2 = { ar := r.1, threads := s.threads.set i r.2.1, spawned := s.spawned ++ r.2.2 } := by
  unfold System.step at h
  cases ht : s.threads[i]? with
  | none => simp [ht] at h
  | some t =>
    simp only [ht] at h
    cases hr : t.step s.ar with
    | none => simp [hr] at h
    | some r =>
      simp only [hr, Option.some.injEq] at h
      exact ⟨t, r, rfl, hr, h.symm⟩

theorem System.lockInv_step (s s2 : System) (i : Nat) (hinv : s.lockInv)
    (h : s.step i = some s2) : s2.lockInv := by
  obtain ⟨t, r, ht, hr, rfl⟩ := System.step_some s s2 i h
  unfold System.lockInv at hinv ⊢
  have h1 := holders_set s.threads i t r.2.1 ht
  have hmu : t.holdsLock = true → s.ar.mu = true := by
    intro hh
    have hp := holders_pos_of_mem s.threads i t ht hh
    by_contra hm
    rw [hinv, if_neg hm] at hp
    exact absurd hp (lt_irrefl _)
  have h2 := (Thread.step_spec s.ar t r hr).2.2 hmu
  simp only
  omega

theorem System.remaining_step (s s2 : System) (i : Nat) (h : s.step i = some s2) :
    remaining s2.threads + 1 = remaining s.threads := by
  obtain ⟨t, r, ht, hr, rfl⟩ := System.step_some s s2 i h
  have h1 := remaining_set s.threads i t r.2.1 ht
  have h2 := (Thread.step_spec s.ar t r hr).2.1
  simp only
  omega

theorem System.run_induction (P : System → Prop)
    (hstep : ∀ s s2 i, P s → s.step i = some s2 → P s2) :
    ∀ (schedule : List Nat) (s : System), P s → P (s.run schedule) := by
  intro schedule
  induction schedule with
  | nil => intro s h; exact h
  | cons i schedule ih =>
    intro s h
    unfold System.run
    cases hs : s.step i with
    | none => exact ih s h
    | some s2 => exact ih s2 (hstep s s2 i h hs)

theorem holders_init (calls : List Call) :
    holders (calls.map (fun c => (⟨c, Pc.start⟩ : Thread))) = 0 := by
  induction calls with
  | nil => rfl
  | cons c calls ih =>
    cases c <;> simp [holders, Thread.holdsLock, ih]

theorem System.lockInv_run (auctions : Collection) (calls : List Call) (schedule : List Nat) :
    ((System.init auctions calls).run schedule).lockInv := by
  apply System.run_induction System.lockInv System.lockInv_step
  simp [System.lockInv, System.init, holders_init, NewAuctionRepository]

theorem System.progress (s : System) (hinv : s.lockInv) (hrem : 0 < remaining s.threads) :
    ∃ i, (s.step i).isSome = true := by
  by_cases hm : s.ar.mu = true
  · unfold System.lockInv at hinv
    rw [if_pos hm] at hinv
    obtain ⟨i, t, ht, hh⟩ := exists_holder s.threads (by omega)
    obtain ⟨call, pc⟩ := t
    cases call with
    | update id status fault =>
      cases pc with
      | start => simp [Thread.holdsLock] at hh
      | locked => exact ⟨i, by simp [System.step, ht, Thread.step]⟩
      | stored err => exact ⟨i, by simp [System.step, ht, Thread.step]⟩
      | done err => simp [Thread.holdsLock] at hh
    | create auctionEntity fault => cases pc <;> simp [Thread.holdsLock] at hh
  · obtain ⟨i, t, ht, hh⟩ := exists_remaining s.threads hrem
    obtain ⟨call, pc⟩ := t
    cases call with
    | update id status fault =>
      cases pc with
      | start => exact ⟨i, by simp [System.step, ht, Thread.step, hm]⟩
      | locked => exact ⟨i, by simp [System.step, ht, Thread.step]⟩
      | stored err => exact ⟨i, by simp [System.step, ht, Thread.step]⟩
      | done err => simp [Thread.remaining] at hh
    | create auctionEntity fault =>
      cases pc with
      | start => exact ⟨i, by simp [System.step, ht, Thread.step]⟩
      | locked => simp [Thread.remaining] at hh
      | stored err => simp [Thread.remaining] at hh
      | done err => simp [Thread.remaining] at hh

theorem find_setStatus_same (id : String) (status : AuctionStatus)
    (docs : List AuctionEntityMongo) :
    (⟨setStatus id status docs⟩ : Collection).find id =
      ((⟨docs⟩ : Collection).find id).map (fun d => { d with Status := status }) := by
  induction docs with
  | nil => rfl
  | cons d ds ih =>
    by_cases hd : d.Id = id
    · simp [Collection.find, setStatus, hd]
    · simp only [Collection.find] at ih
      simp [Collection.find, setStatus, hd, ih]

theorem find_setStatus_other (id id2 : String) (status : AuctionStatus)
    (docs : List AuctionEntityMongo) (h : id2 ≠ id) :
    (⟨setStatus id2 status docs⟩ : Collection).find id = (⟨docs⟩ : Collection).find id := by
  induction docs with
  | nil => rfl
  | cons d ds ih =>
    simp only [Collection.find] at ih
    by_cases hd : d.Id = id2
    · have hd2 : ¬ d.Id = id := fun e => h (hd.symm.trans e)
      simp [Collection.find, setStatus, hd, hd2, h]
    · by_cases hd2 : d.Id = id
      · subst hd2
        simp [Collection.find, setStatus, hd]
      · simp [Collection.find, setStatus, hd, hd2, ih]

theorem find_append_of_some (id : String) (docs : List AuctionEntityMongo)
    (doc d : AuctionEntityMongo) (h : (⟨docs⟩ : Collection).find id = some d) :
    (⟨docs ++ [doc]⟩ : Collection).find id = some d := by
  simp only [Collection.find] at h ⊢
  simp [List.find?_append, h]

theorem UpdateAuctionStatus_find_other (ar : AuctionRepository) (fault : Bool)
    (id id2 : String) (status : AuctionStatus) (h : id2 ≠ id) :
    (UpdateAuctionStatus ar fault id2 status).2.Collection.find id = ar.Collection.find id := by
  cases fault
  · simp only [UpdateAuctionStatus, Collection.UpdateOne]
    exact find_setStatus_other id id2 status _ h
  · simp [UpdateAuctionStatus, Collection.UpdateOne]

theorem CreateAuction_find (ar : AuctionRepository) (fault : Bool) (auctionEntity : Auction)
    (id : String) (d : AuctionEntityMongo) (h : ar.Collection.find id = some d) :
    (CreateAuction ar fault auctionEntity).ar.Collection.find id = some d := by
  unfold CreateAuction Collection.InsertOne
  by_cases hf : fault = true
  · simpa [hf] using h
  · by_cases hk : (auctionEntityMongo auctionEntity).Id ∈ ar.Collection.keys
    · simpa [hf, hk] using h
    · simp only [hf, hk, if_false]
      exact find_append_of_some id _ _ d h

theorem Thread.step_find_other (ar : AuctionRepository) (t : Thread)
    (r : AuctionRepository × Thread × List Goroutine) (h : t.step ar = some r)
    (id : String) (d : AuctionEntityMongo)
    (hother : ∀ id2 status2 fault2, t.call = Call.update id2 status2 fault2 → id2 ≠ id)
    (hfind : ar.Collection.find id = some d) : r.1.Collection.find id = some d := by
  obtain ⟨call, pc⟩ := t
  cases call with
  | update id2 status2 fault2 =>
    have hne : id2 ≠ id := hother id2 status2 fault2 rfl
    cases pc with
    | start =>
      by_cases hm : ar.mu = true
      · simp [Thread.step, hm] at h
      · simp only [Thread.step, hm, Bool.false_eq_true, if_false, Option.some.injEq] at h
        subst h
        exact hfind
    | locked =>
      simp only [Thread.step, Option.some.injEq] at h
      subst h
      simp only
      rw [UpdateAuctionStatus_find_other ar fault2 id id2 status2 hne]
      exact hfind
    | stored err =>
      simp only [Thread.step, Option.some.injEq] at h
      subst h
      exact hfind
    | done err => simp [Thread.step] at h
  | create auctionEntity fault =>
    cases pc with
    | start =>
      simp only [Thread.step, Option.some.injEq] at h
      subst h
      exact CreateAuction_find ar fault auctionEntity id d hfind
    | locked => simp [Thread.step] at h
    | stored err => simp [Thread.step] at h
    | done err => simp [Thread.step] at h

theorem Thread.step_own (ar : AuctionRepository) (id : String) (status : AuctionStatus)
    (pc : Pc) (d0 : AuctionEntityMongo)
    (r : AuctionRepository × Thread × List Goroutine)
    (h : Thread.step ar ⟨Call.update id status false, pc⟩ = some r)
    (hcase : ((pc = Pc.start ∨ pc = Pc.locked) ∧ ar.Collection.find id = some d0) ∨
      ((pc = Pc.stored none ∨ pc = Pc.done none) ∧
        ar.Collection.find id = some { d0 with Status := status })) :
    ∃ pc2, r.2.1 = ⟨Call.update id status false, pc2⟩ ∧
      (((pc2 = Pc.start ∨ pc2 = Pc.locked) ∧ r.1.Collection.find id = some d0) ∨
        ((pc2 = Pc.stored none ∨ pc2 = Pc.done none) ∧
          r.1.Collection.find id = some { d0 with Status := status })) := by
  rcases hcase with ⟨hpc | hpc, hfind⟩ | ⟨hpc | hpc, hfind⟩
  · subst hpc
    by_cases hm : ar.mu = true
    · simp [Thread.step, hm] at h
    · simp only [Thread.step, hm, Bool.false_eq_true, if_false, Option.some.injEq] at h
      subst h
      exact ⟨Pc.locked, rfl, Or.inl ⟨Or.inr rfl, hfind⟩⟩
  · subst hpc
    simp only [Thread.step, Option.some.injEq] at h
    subst h
    refine ⟨Pc.stored none, ?_, Or.inr ⟨Or.inl rfl, ?_⟩⟩
    · simp [UpdateAuctionStatus_err]
    · simp only [UpdateAuctionStatus, Collection.UpdateOne, Bool.false_eq_true, if_false]
      rw [find_setStatus_same]
      simp only [Collection.find] at hfind ⊢
      rw [hfind]
      rfl
  · subst hpc
    simp only [Thread.step, Option.some.injEq] at h
    subst h
    exact ⟨Pc.done none, rfl, Or.inr ⟨Or.inr rfl, hfind⟩⟩
  · subst hpc
    simp [Thread.step] at h

theorem System.appliedInv_step (j : Nat) (id : String) (status : AuctionStatus)
    (d0 : AuctionEntityMongo) (s s2 : System) (i : Nat)
    (hinv : s.appliedInv j id status d0) (h : s.step i = some s2) :
    s2.appliedInv j id status d0 := by
  obtain ⟨t, r, ht, hr, rfl⟩ := System.step_some s s2 i h
  obtain ⟨⟨pc, hj, hcase⟩, hoth⟩ := hinv
  have hlt : i < s.threads.length := by
    by_contra hge
    rw [List.getElem?_eq_none (not_lt.1 hge)] at ht
    exact Option.noConfusion ht
  by_cases hij : i = j
  · subst hij
    have et : t = ⟨Call.update id status false, pc⟩ := by
      rw [ht] at hj
      exact Option.some.inj hj
    subst et
    obtain ⟨pc2, e2, hcase2⟩ := Thread.step_own s.ar id status pc d0 r hr hcase
    refine ⟨⟨pc2, ?_, hcase2⟩, ?_⟩
    · simp only [List.getElem?_set, hlt, if_true, e2]
    · intro k u hk hu
      simp only [List.getElem?_set, Ne.symm hk, if_false] at hu
      exact hoth k u hk hu
  · have hfind : ∀ d, s.ar.Collection.find id = some d → r.1.Collection.find id = some d :=
      fun d hd => Thread.step_find_other s.ar t r hr id d (hoth i t hij ht) hd
    refine ⟨⟨pc, ?_, ?_⟩, ?_⟩
    · simp only [List.getElem?_set, hij, if_false]
      exact hj
    · rcases hcase with ⟨hpc, hf⟩ | ⟨hpc, hf⟩
      · exact Or.inl ⟨hpc, hfind _ hf⟩
      · exact Or.inr ⟨hpc, hfind _ hf⟩
    · intro k u hk hu
      by_cases hik : i = k
      · subst hik
        simp only [List.getElem?_set, hlt, if_true, Option.some.injEq] at hu
        subst hu
        rw [(Thread.step_spec s.ar t r hr).1]
        exact hoth i t hij ht
      · simp only [List.getElem?_set, hik, if_false] at hu
        exact hoth k u hk hu

theorem System.appliedInv_init (auctions : Collection) (calls : List Call) (j : Nat)
    (id : String) (status : AuctionStatus) (d0 : AuctionEntityMongo)
    (hj : calls[j]? = some (Call.update id status false))
    (hother : ∀ (i : Nat) id2 status2 fault2, i ≠ j →
      calls[i]? = some (Call.update id2 status2 fault2) → id2 ≠ id)
    (hfind : auctions.find id = some d0) :
    (System.init auctions calls).appliedInv j id status d0 := by
  refine ⟨⟨Pc.start, ?_, Or.inl ⟨Or.inl rfl, hfind⟩⟩, ?_⟩
  · simp [System.init, List.getElem?_map, hj]
  · intro i t hi ht id2 status2 fault2 hc
    simp only [System.init, List.getElem?_map] at ht
    cases hci : calls[i]? with
    | none => simp [hci] at ht
    | some c =>
      simp only [hci, Option.map_some', Option.some.injEq] at ht
      subst ht
      simp only at hc
      subst hc
      exact hother i id2 status2 fault2 hi hci

theorem System.run_append (s : System) (a b : List Nat) :
    s.run (a ++ b) = (s.run a).run b := by
  induction a generalizing s with
  | nil => rfl
  | cons i a ih =>
    simp only [List.cons_append, System.run]
    cases s.step i with
    | none => exact ih s
    | some s2 => exact ih s2

theorem System.completes (n : Nat) :
    ∀ s : System, s.lockInv → remaining s.threads = n →
      ∃ more, remaining (s.run more).threads = 0 := by
  induction n with
  | zero => intro s _ h; exact ⟨[], h⟩
  | succ n ih =>
    intro s hinv hrem
    obtain ⟨i, hi⟩ := System.progress s hinv (by omega)
    cases hs : s.step i with
    | none => simp [hs] at hi
    | some s2 =>
      have h1 := System.remaining_step s s2 i hs
      obtain ⟨more, hmore⟩ := ih s2 (System.lockInv_step s s2 i hinv hs) (by omega)
      exact ⟨i :: more, by simpa [System.run, hs] using hmore⟩

theorem remaining_zero_of_mem (l : List Thread) (i : Nat) (t : Thread) (h : l[i]? = some t)
    (hrem : remaining l = 0) : t.remaining = 0 := by
  induction l generalizing i with
  | nil => simp at h
  | cons a l ih =>
    simp only [remaining] at hrem
    cases i with
    | zero =>
      simp only [List.getElem?_cons_zero, Option.some.injEq] at h
      subst h
      omega
    | succ i =>
      simp only [List.getElem?_cons_succ] at h
      exact ih i h (by omega)

theorem System.run_single_update (auctions : Collection) (id : String)
    (status : AuctionStatus) (fault : Bool) :
    (System.init auctions [Call.update id status fault]).run [0, 0, 0] =
      { ar := (UpdateAuctionStatus (NewAuctionRepository auctions) fault id status).2
        threads := [⟨Call.update id status fault,
          Pc.done (UpdateAuctionStatus (NewAuctionRepository auctions) fault id status).1⟩]
        spawned := [] } := by
  cases fault <;>
    simp [System.run, System.step, System.init, Thread.step, NewAuctionRepository,
      UpdateAuctionStatus, Collection.UpdateOne]

theorem System.remaining_run (schedule : List Nat) :
    ∀ s : System, remaining (s.run schedule).threads + s.moves schedule =
      remaining s.threads := by
  induction schedule with
  | nil => intro s; rfl
  | cons i schedule ih =>
    intro s
    unfold System.run System.moves
    cases hs : s.step i with
    | none => exact ih s
    | some s2 =>
      have h1 := System.remaining_step s s2 i hs
      have h2 := ih s2
      simp only
      omega

/-! ## Facts about the first tick -/

theorem autoCloseLoop_checks_le (auctionId : String) (expirationTime : Time)
    (ar : AuctionRepository) (ticks : List Tick) :
    (autoCloseLoop auctionId expirationTime ar ticks).checks ≤ ticks.length := by
  induction ticks generalizing ar with
  | nil => simp [autoCloseLoop]
  | cons t ticks ih =>
    by_cases h : Time.After t.now expirationTime = true
    · simp [autoCloseLoop, h]
    · simp only [autoCloseLoop, h, List.length_cons]
      exact Nat.succ_le_succ (ih _)

theorem tickerTicks_length (start : Time) (checkInterval : Duration)
    (others : Nat → List StatusUpdate) (fault : Nat → Bool) (n : Nat) :
    ∀ first : Nat, (tickerTicks start checkInterval others fault first n).length = n := by
  induction n with
  | zero => intro first; rfl
  | succ n ih => intro first; simp [tickerTicks, ih]

theorem mem_tickerTicks (start : Time) (checkInterval : Duration)
    (others : Nat → List StatusUpdate) (fault : Nat → Bool) (n : Nat) :
    ∀ (first : Nat) (t : Tick), t ∈ tickerTicks start checkInterval others fault first n →
      ∃ k : Nat, first ≤ k ∧ k < first + n ∧ t.now = start + (k : Int) * checkInterval := by
  induction n with
  | zero => intro first t h; simp [tickerTicks] at h
  | succ n ih =>
    intro first t h
    simp only [tickerTicks, List.mem_cons] at h
    rcases h with h | h
    · subst h
      exact ⟨first, le_refl _, by omega, rfl⟩
    · obtain ⟨k, k1, k2, k3⟩ := ih (first + 1) t h
      exact ⟨k, by omega, by omega, k3⟩

/-! ## Facts about what the watcher writes -/

theorem autoCloseLoop_waiting (auctionId : String) (expirationTime : Time)
    (ar : AuctionRepository) (ticks : List Tick)
    (h : ∀ t ∈ ticks, t.now ≤ expirationTime) :
    autoCloseLoop auctionId expirationTime ar ticks =
      { ar := waitThrough ar ticks, calls := [], checks := ticks.length, returned := false,
        panicked := false } := by
  induction ticks generalizing ar with
  | nil => rfl
  | cons t ticks ih =>
    have ht : ¬ Time.After t.now expirationTime = true := by
      rw [Time.After_iff]
      exact not_lt.2 (h t (List.mem_cons_self _ _))
    have ih2 := ih (applyOthers ar t.others) (fun q hq => h q (List.mem_cons_of_mem _ hq))
    simp only [autoCloseLoop, ht, waitThrough]
    simp [ih2]

theorem exists_first_expired (expirationTime : Time) (ticks : List Tick)
    (h : ∃ t ∈ ticks, expirationTime < t.now) :
    ∃ (pre : List Tick) (t : Tick) (rest : List Tick), ticks = pre ++ t :: rest ∧
      (∀ p ∈ pre, p.now ≤ expirationTime) ∧ expirationTime < t.now := by
  induction ticks with
  | nil => simp at h
  | cons a ticks ih =>
    by_cases ha : expirationTime < a.now
    · exact ⟨[], a, ticks, rfl, by simp, ha⟩
    · have h2 : ∃ t ∈ ticks, expirationTime < t.now := by
        obtain ⟨t, ht, hlt⟩ := h
        rcases List.mem_cons.1 ht with e | e
        · exact absurd (e ▸ hlt) ha
        · exact ⟨t, e, hlt⟩
      obtain ⟨pre, t, rest, e, hpre, ht⟩ := ih h2
      refine ⟨a :: pre, t, rest, by rw [e]; rfl, ?_, ht⟩
      intro p hp
      rcases List.mem_cons.1 hp with e2 | e2
      · exact e2 ▸ not_lt.1 ha
      · exact hpre p e2

theorem UpdateAuctionStatus_find_same (ar : AuctionRepository) (id : String)
    (status : AuctionStatus) :
    (UpdateAuctionStatus ar false id status).2.Collection.find id =
      (ar.Collection.find id).map (fun d => { d with Status := status }) := by
  simp only [UpdateAuctionStatus, Collection.UpdateOne, Bool.false_eq_true, if_false]
  exact find_setStatus_same id status _

theorem UpdateAuctionStatus_fault (ar : AuctionRepository) (id : String)
    (status : AuctionStatus) : (UpdateAuctionStatus ar true id status).2 = ar := by
  simp [UpdateAuctionStatus, Collection.UpdateOne]

theorem UpdateAuctionStatus_find_fields (ar : AuctionRepository) (fault : Bool)
    (id id2 : String) (status : AuctionStatus) (d0 : AuctionEntityMongo)
    (h : ∃ s, ar.Collection.find id = some { d0 with Status := s }) :
    ∃ s, (UpdateAuctionStatus ar fault id2 status).2.Collection.find id =
      some { d0 with Status := s } := by
  obtain ⟨s, hs⟩ := h
  cases fault
  · by_cases e : id2 = id
    · subst e
      rw [UpdateAuctionStatus_find_same, hs]
      exact ⟨status, rfl⟩
    · rw [UpdateAuctionStatus_find_other ar false id id2 status e]
      exact ⟨s, hs⟩
  · rw [UpdateAuctionStatus_fault]
    exact ⟨s, hs⟩

theorem applyOthers_find (id : String) (d0 : AuctionEntityMongo) (us : List StatusUpdate) :
    ∀ ar : AuctionRepository, (∃ s, ar.Collection.find id = some { d0 with Status := s }) →
      ∃ s, (applyOthers ar us).Collection.find id = some { d0 with Status := s } := by
  induction us with
  | nil => intro ar h; exact h
  | cons u us ih =>
    intro ar h
    exact ih _ (UpdateAuctionStatus_find_fields ar u.fault id u.id u.status d0 h)

theorem waitThrough_find (id : String) (d0 : AuctionEntityMongo) (ticks : List Tick) :
    ∀ ar : AuctionRepository, (∃ s, ar.Collection.find id = some { d0 with Status := s }) →
      ∃ s, (waitThrough ar ticks).Collection.find id = some { d0 with Status := s } := by
  induction ticks with
  | nil => intro ar h; exact h
  | cons t ticks ih =>
    intro ar h
    exact ih _ (applyOthers_find id d0 t.others ar h)

theorem UpdateAuctionStatus_completes (ar : AuctionRepository) (id : String)
    (d0 : AuctionEntityMongo)
    (h : ∃ s, ar.Collection.find id = some { d0 with Status := s }) :
    (UpdateAuctionStatus ar false id AuctionStatus.Completed).2.Collection.find id =
      some { d0 with Status := AuctionStatus.Completed } := by
  obtain ⟨s, hs⟩ := h
  rw [UpdateAuctionStatus_find_same, hs]
  rfl

theorem autoCloseLoop_ar_cases (auctionId : String) (expirationTime : Time)
    (ar : AuctionRepository) (ticks : List Tick) :
    ((∀ t ∈ ticks, t.now ≤ expirationTime) ∧
      (autoCloseLoop auctionId expirationTime ar ticks).ar = waitThrough ar ticks ∧
      (autoCloseLoop auctionId expirationTime ar ticks).calls = []) ∨
    ∃ (pre : List Tick) (t : Tick) (rest : List Tick), ticks = pre ++ t :: rest ∧
      (∀ p ∈ pre, p.now ≤ expirationTime) ∧ expirationTime < t.now ∧
      (autoCloseLoop auctionId expirationTime ar ticks).ar =
        (UpdateAuctionStatus (applyOthers (waitThrough ar pre) t.others) t.fault auctionId
          AuctionStatus.Completed).2 := by
  by_cases h : ∃ t ∈ ticks, expirationTime < t.now
  · obtain ⟨pre, t, rest, e, hpre, ht⟩ := exists_first_expired _ ticks h
    refine Or.inr ⟨pre, t, rest, e, hpre, ht, ?_⟩
    rw [e, autoCloseLoop_first_expired _ _ _ pre t rest hpre ht]
  · have h2 : ∀ t ∈ ticks, t.now ≤ expirationTime := by
      intro t ht
      by_contra hlt
      exact h ⟨t, ht, not_le.1 hlt⟩
    refine Or.inl ⟨h2, ?_, ?_⟩
    · rw [autoCloseLoop_waiting _ _ _ _ h2]
    · rw [autoCloseLoop_waiting _ _ _ _ h2]

/-! ## The claims -/

/-- C1: the deadline of a watcher started for timestamp `T` is `T + D`, with `D` the configured
duration, and every status update the watcher issues is issued at a check whose reading of
the clock is strictly after `T + D`; no run contains an update at a time at or before it.
In the store too: while no check has read a time after `T + D` the watcher has written
nothing, and once one has, the repository is the one returned by the call made at the first
such check. -/
theorem startAutoCloseRoutine_no_update_before_deadline
    (ParseDuration : String → Option Duration) (Getenv : String → String)
    (ar : AuctionRepository) (auctionId : String) (timestamp : Time) (ticks : List Tick) :
    (0 < getAuctionCheckInterval ParseDuration Getenv →
      startAutoCloseRoutine ParseDuration Getenv ar auctionId timestamp ticks =
        autoCloseLoop auctionId (timestamp + getAuctionDuration ParseDuration Getenv) ar ticks) ∧
    (∀ c ∈ (startAutoCloseRoutine ParseDuration Getenv ar auctionId timestamp ticks).calls,
      timestamp + getAuctionDuration ParseDuration Getenv < c.time ∧
        ∃ t ∈ ticks, t.now = c.time) ∧
    (¬ ∃ c ∈ (startAutoCloseRoutine ParseDuration Getenv ar auctionId timestamp ticks).calls,
      c.time ≤ timestamp + getAuctionDuration ParseDuration Getenv) ∧
    (0 < getAuctionCheckInterval ParseDuration Getenv →
      (∀ t ∈ ticks, t.now ≤ timestamp + getAuctionDuration ParseDuration Getenv) →
      (startAutoCloseRoutine ParseDuration Getenv ar auctionId timestamp ticks).calls = [] ∧
      (startAutoCloseRoutine ParseDuration Getenv ar auctionId timestamp ticks).ar =
        waitThrough ar ticks) ∧
    (0 < getAuctionCheckInterval ParseDuration Getenv →
      (∃ t ∈ ticks, timestamp + getAuctionDuration ParseDuration Getenv < t.now) →
      ∃ (pre : List Tick) (t : Tick) (rest : List Tick), ticks = pre ++ t :: rest ∧
        (∀ p ∈ pre, p.now ≤ timestamp + getAuctionDuration ParseDuration Getenv) ∧
        timestamp + getAuctionDuration ParseDuration Getenv < t.now ∧
        (startAutoCloseRoutine ParseDuration Getenv ar auctionId timestamp ticks).ar =
          (UpdateAuctionStatus (applyOthers (waitThrough ar pre) t.others) t.fault auctionId
            AuctionStatus.Completed).2) := by
  have key : ∀ c ∈ (startAutoCloseRoutine ParseDuration Getenv ar auctionId timestamp
      ticks).calls, timestamp + getAuctionDuration ParseDuration Getenv < c.time ∧
        ∃ t ∈ ticks, t.now = c.time := by
    intro c hc
    by_cases h : getAuctionCheckInterval ParseDuration Getenv ≤ 0
    · simp [startAutoCloseRoutine, h] at hc
    · simp only [startAutoCloseRoutine, h, if_false, Time.Add] at hc
      obtain ⟨_, _, t, ht, h1, h2⟩ := autoCloseLoop_calls _ _ _ _ c hc
      exact ⟨h1 ▸ h2, t, ht, h1⟩
  refine ⟨?_, key, ?_, ?_, ?_⟩
  · intro h
    simp [startAutoCloseRoutine, not_le.2 h, Time.Add]
  · rintro ⟨c, hc, hle⟩
    exact absurd (key c hc).1 (not_lt.2 hle)
  · intro h hall
    simp only [startAutoCloseRoutine, not_le.2 h, if_false, Time.Add]
    rw [autoCloseLoop_waiting _ _ _ _ hall]
    exact ⟨rfl, rfl⟩
  · intro h hex
    simp only [startAutoCloseRoutine, not_le.2 h, if_false, Time.Add]
    obtain ⟨pre, t, rest, e, hpre, ht⟩ := exists_first_expired _ ticks hex
    refine ⟨pre, t, rest, e, hpre, ht, ?_⟩
    rw [e, autoCloseLoop_first_expired _ _ _ pre t rest hpre ht]

/-- C1, on the sample run: the watcher issues its update at 9.6 s, after the deadline of
9.1 s; after four ticks, the last at 9.1 s, the stored auction is still active, after the
fifth it is completed. -/
theorem startAutoCloseRoutine_no_update_before_deadline_witness :
    (startAutoCloseRoutine sampleParseDuration sampleGetenv sampleRepository "a1" 7100000000
        (sampleTicks false)).calls =
      [⟨9600000000, "a1", AuctionStatus.Completed, none⟩] ∧
    (¬ ∃ c ∈ (startAutoCloseRoutine sampleParseDuration sampleGetenv sampleRepository "a1"
        7100000000 (sampleTicks false)).calls,
      c.time ≤ 7100000000 + getAuctionDuration sampleParseDuration sampleGetenv) ∧
    ((startAutoCloseRoutine sampleParseDuration sampleGetenv sampleRepository "a1" 7100000000
        (tickerTicks 7100000000 500000000 (fun _ => []) (fun _ => false) 1
          4)).ar.Collection.find "a1").map (fun d => d.Status) = some AuctionStatus.Active ∧
    ((startAutoCloseRoutine sampleParseDuration sampleGetenv sampleRepository "a1" 7100000000
        (tickerTicks 7100000000 500000000 (fun _ => []) (fun _ => false) 1
          5)).ar.Collection.find "a1").map (fun d => d.Status) = some AuctionStatus.Completed :=
  ⟨by decide,
    (startAutoCloseRoutine_no_update_before_deadline sampleParseDuration sampleGetenv
      sampleRepository "a1" 7100000000 (sampleTicks false)).2.2.1,
    by decide, by decide⟩

/-- C2: a watcher started for auction `A` issues at most one status update, and that update
targets `A` with status `Completed`, whatever status updates other callers make between the
checks (to `A` or to other identifiers): the number of updates the watcher issues depends
only on the readings of the clock. In the store too: the repository after the run is the one
the other callers left, changed by at most one call of the watcher, of `A` to `Completed`,
which leaves the records of all other identifiers as they were. -/
theorem startAutoCloseRoutine_at_most_one_update
    (ParseDuration : String → Option Duration) (Getenv : String → String)
    (ar : AuctionRepository) (auctionId : String) (timestamp : Time) (ticks : List Tick) :
    (startAutoCloseRoutine ParseDuration Getenv ar auctionId timestamp ticks).calls.length ≤ 1 ∧
    (∀ c ∈ (startAutoCloseRoutine ParseDuration Getenv ar auctionId timestamp ticks).calls,
      c.id = auctionId ∧ c.status = AuctionStatus.Completed) ∧
    (∀ (ar2 : AuctionRepository) (ticks2 : List Tick),
      ticks2.map (fun t => t.now) = ticks.map (fun t => t.now) →
        (startAutoCloseRoutine ParseDuration Getenv ar2 auctionId timestamp ticks2).calls.length =
          (startAutoCloseRoutine ParseDuration Getenv ar auctionId timestamp ticks).calls.length) ∧
    ((startAutoCloseRoutine ParseDuration Getenv ar auctionId timestamp ticks).ar = ar ∨
      (startAutoCloseRoutine ParseDuration Getenv ar auctionId timestamp ticks).ar =
        waitThrough ar ticks ∨
      ∃ (pre : List Tick) (t : Tick) (rest : List Tick), ticks = pre ++ t :: rest ∧
        (startAutoCloseRoutine ParseDuration Getenv ar auctionId timestamp ticks).ar =
          (UpdateAuctionStatus (applyOthers (waitThrough ar pre) t.others) t.fault auctionId
            AuctionStatus.Completed).2 ∧
        ∀ id2, id2 ≠ auctionId →
          (startAutoCloseRoutine ParseDuration Getenv ar auctionId timestamp
              ticks).ar.Collection.find id2 =
            (applyOthers (waitThrough ar pre) t.others).Collection.find id2) := by
  by_cases h : getAuctionCheckInterval ParseDuration Getenv ≤ 0
  · simp [startAutoCloseRoutine, h]
  · simp only [startAutoCloseRoutine, h, if_false]
    refine ⟨?_, ?_, ?_, ?_⟩
    rotate_right
    · rcases autoCloseLoop_ar_cases auctionId
        (Time.Add timestamp (getAuctionDuration ParseDuration Getenv)) ar ticks with
        ⟨_, hw, _⟩ | ⟨pre, t, rest, e, _, _, hu⟩
      · exact Or.inr (Or.inl hw)
      · refine Or.inr (Or.inr ⟨pre, t, rest, e, hu, ?_⟩)
        intro id2 hid
        rw [hu]
        exact UpdateAuctionStatus_find_other _ t.fault id2 auctionId AuctionStatus.Completed
          (Ne.symm hid)
    · rw [autoCloseLoop_calls_length]
      split <;> simp
    · intro c hc
      obtain ⟨h1, h2, _⟩ := autoCloseLoop_calls _ _ _ _ c hc
      exact ⟨h1, h2⟩
    · intro ar2 ticks2 h2
      exact autoCloseLoop_calls_length_of_clock _ _ _ _ _ _ h2

/-- C2, on the sample run, in which another caller reopens `a1` and completes `a2` before the
deadline: the watcher issues one update, for `a1`, and at the end both are completed, `a2`
by the other caller and `a1` by the watcher. -/
theorem startAutoCloseRoutine_at_most_one_update_witness :
    (startAutoCloseRoutine sampleParseDuration sampleGetenv sampleRepository "a1" 7100000000
        (sampleTicks false)).calls.length = 1 ∧
    (∀ c ∈ (startAutoCloseRoutine sampleParseDuration sampleGetenv sampleRepository "a1"
        7100000000 (sampleTicks false)).calls,
      c.id = "a1" ∧ c.status = AuctionStatus.Completed) ∧
    (startAutoCloseRoutine sampleParseDuration sampleGetenv sampleRepository "a1" 7100000000
        (sampleTicks false)).ar.Collection.docs.map (fun d => (d.Id, d.Status)) =
      [("a1", AuctionStatus.Completed), ("a2", AuctionStatus.Completed)] :=
  ⟨by decide,
    (startAutoCloseRoutine_at_most_one_update sampleParseDuration sampleGetenv
      sampleRepository "a1" 7100000000 (sampleTicks false)).2.1,
    by decide⟩

/-- C3: `getAuctionDuration` returns the parsed value of `AUCTION_DURATION` when it parses and
five minutes otherwise, `getAuctionCheckInterval` the parsed value of
`AUCTION_CHECK_INTERVAL` when it parses and one minute otherwise; the empty value, which does
not parse, gives the defaults; each result depends on its own key only. -/
theorem getAuction_config_defaults
    (ParseDuration : String → Option Duration) (Getenv : String → String)
    (hempty : ParseDuration "" = none) :
    (∀ d, ParseDuration (Getenv "AUCTION_DURATION") = some d →
      getAuctionDuration ParseDuration Getenv = d) ∧
    (ParseDuration (Getenv "AUCTION_DURATION") = none →
      getAuctionDuration ParseDuration Getenv = 300000000000) ∧
    (Getenv "AUCTION_DURATION" = "" →
      getAuctionDuration ParseDuration Getenv = 300000000000) ∧
    (∀ c, ParseDuration (Getenv "AUCTION_CHECK_INTERVAL") = some c →
      getAuctionCheckInterval ParseDuration Getenv = c) ∧
    (ParseDuration (Getenv "AUCTION_CHECK_INTERVAL") = none →
      getAuctionCheckInterval ParseDuration Getenv = 60000000000) ∧
    (Getenv "AUCTION_CHECK_INTERVAL" = "" →
      getAuctionCheckInterval ParseDuration Getenv = 60000000000) ∧
    (∀ Getenv2 : String → String, Getenv2 "AUCTION_DURATION" = Getenv "AUCTION_DURATION" →
      getAuctionDuration ParseDuration Getenv2 = getAuctionDuration ParseDuration Getenv) ∧
    (∀ Getenv2 : String → String,
      Getenv2 "AUCTION_CHECK_INTERVAL" = Getenv "AUCTION_CHECK_INTERVAL" →
      getAuctionCheckInterval ParseDuration Getenv2 =
        getAuctionCheckInterval ParseDuration Getenv) := by
  refine ⟨?_, ?_, ?_, ?_, ?_, ?_, ?_, ?_⟩
  · intro d h
    simp [getAuctionDuration, h]
  · intro h
    simp [getAuctionDuration, h, Minute, Second]
  · intro h
    simp [getAuctionDuration, h, hempty, Minute, Second]
  · intro c h
    simp [getAuctionCheckInterval, h]
  · intro h
    simp [getAuctionCheckInterval, h, Minute, Second]
  · intro h
    simp [getAuctionCheckInterval, h, hempty, Minute, Second]
  · intro G2 h
    simp [getAuctionDuration, h]
  · intro G2 h
    simp [getAuctionCheckInterval, h]

/-- C3, on the sample parser: with neither key set both defaults are used, and with the
test's environment the two parsed values. -/
theorem getAuction_config_defaults_witness :
    sampleParseDuration "" = none ∧
    getAuctionDuration sampleParseDuration emptyGetenv = 300000000000 ∧
    getAuctionCheckInterval sampleParseDuration emptyGetenv = 60000000000 ∧
    getAuctionDuration sampleParseDuration sampleGetenv = 2000000000 ∧
    getAuctionCheckInterval sampleParseDuration sampleGetenv = 500000000 :=
  ⟨by decide,
    (getAuction_config_defaults sampleParseDuration emptyGetenv (by decide)).2.2.1 rfl,
    (getAuction_config_defaults sampleParseDuration emptyGetenv (by decide)).2.2.2.2.2.1 rfl,
    (getAuction_config_defaults sampleParseDuration sampleGetenv (by decide)).1 _ (by decide),
    (getAuction_config_defaults sampleParseDuration sampleGetenv (by decide)).2.2.2.1 _
      (by decide)⟩

/-- C4: on the first check that finds the deadline passed, the watcher calls
`UpdateAuctionStatus` for its auction with `Completed` and its loop returns, whether the
update succeeded or returned an internal error; the ticks after that check are not looked at,
so there is no further check and no retry. The repository after the run is the one that call
returns: when the update succeeded the stored auction has status `Completed`, when it failed
the store is as the other callers left it. -/
theorem startAutoCloseRoutine_returns_after_first_attempt
    (ParseDuration : String → Option Duration) (Getenv : String → String)
    (ar : AuctionRepository) (auctionId : String) (timestamp : Time)
    (pre : List Tick) (t : Tick) (rest : List Tick)
    (hinterval : 0 < getAuctionCheckInterval ParseDuration Getenv)
    (hpre : ∀ p ∈ pre, p.now ≤ timestamp + getAuctionDuration ParseDuration Getenv)
    (ht : timestamp + getAuctionDuration ParseDuration Getenv < t.now) :
    (startAutoCloseRoutine ParseDuration Getenv ar auctionId timestamp
        (pre ++ t :: rest)).returned = true ∧
    (startAutoCloseRoutine ParseDuration Getenv ar auctionId timestamp
        (pre ++ t :: rest)).calls =
      [⟨t.now, auctionId, AuctionStatus.Completed,
        if t.fault then some (NewInternalServerError "Error trying to update auction status")
        else none⟩] ∧
    (startAutoCloseRoutine ParseDuration Getenv ar auctionId timestamp
        (pre ++ t :: rest)).checks = pre.length + 1 ∧
    startAutoCloseRoutine ParseDuration Getenv ar auctionId timestamp (pre ++ t :: rest) =
      startAutoCloseRoutine ParseDuration Getenv ar auctionId timestamp (pre ++ [t]) ∧
    (startAutoCloseRoutine ParseDuration Getenv ar auctionId timestamp
        (pre ++ t :: rest)).ar =
      (UpdateAuctionStatus (applyOthers (waitThrough ar pre) t.others) t.fault auctionId
        AuctionStatus.Completed).2 ∧
    (t.fault = false → ∀ d0, ar.Collection.find auctionId = some d0 →
      (startAutoCloseRoutine ParseDuration Getenv ar auctionId timestamp
          (pre ++ t :: rest)).ar.Collection.find auctionId =
        some { d0 with Status := AuctionStatus.Completed }) ∧
    (t.fault = true →
      (startAutoCloseRoutine ParseDuration Getenv ar auctionId timestamp
          (pre ++ t :: rest)).ar = applyOthers (waitThrough ar pre) t.others) := by
  have h := not_le.2 hinterval
  simp only [startAutoCloseRoutine, h, if_false, Time.Add]
  rw [autoCloseLoop_first_expired _ _ _ pre t rest hpre ht,
    autoCloseLoop_first_expired _ _ _ pre t [] hpre ht]
  refine ⟨rfl, by simp [UpdateAuctionStatus_err], rfl, rfl, rfl, ?_, ?_⟩
  · intro hf d0 hd0
    simp only [hf]
    exact UpdateAuctionStatus_completes _ auctionId d0
      (applyOthers_find auctionId d0 t.others _
        (waitThrough_find auctionId d0 pre ar ⟨d0.Status, hd0⟩))
  · intro hf
    simp only [hf]
    exact UpdateAuctionStatus_fault _ _ _

/-- C4, on the sample run: the fifth check is the first after the deadline. With a store
that fails the update returns an error, the loop has returned all the same and `a1` is still
active; with a store that works `a1` is completed. -/
theorem startAutoCloseRoutine_returns_after_first_attempt_witness :
    (startAutoCloseRoutine sampleParseDuration sampleGetenv sampleRepository "a1" 7100000000
        (tickerTicks 7100000000 500000000 (fun _ => []) (fun _ => true) 1 4 ++
          ⟨[], 9600000000, true⟩ :: [⟨[], 10100000000, false⟩])).returned = true ∧
    (startAutoCloseRoutine sampleParseDuration sampleGetenv sampleRepository "a1" 7100000000
        (tickerTicks 7100000000 500000000 (fun _ => []) (fun _ => true) 1 4 ++
          ⟨[], 9600000000, true⟩ :: [⟨[], 10100000000, false⟩])).calls =
      [⟨9600000000, "a1", AuctionStatus.Completed,
        some (NewInternalServerError "Error trying to update auction status")⟩] ∧
    (startAutoCloseRoutine sampleParseDuration sampleGetenv sampleRepository "a1" 7100000000
        (tickerTicks 7100000000 500000000 (fun _ => []) (fun _ => true) 1 4 ++
          ⟨[], 9600000000, true⟩ :: [⟨[], 10100000000, false⟩])).ar.Collection.find "a1" =
      some (auctionEntityMongo sampleAuction) ∧
    (startAutoCloseRoutine sampleParseDuration sampleGetenv sampleRepository "a1" 7100000000
        (tickerTicks 7100000000 500000000 (fun _ => []) (fun _ => true) 1 4 ++
          ⟨[], 9600000000, false⟩ :: [⟨[], 10100000000, false⟩])).ar.Collection.find "a1" =
      some { auctionEntityMongo sampleAuction with Status := AuctionStatus.Completed } ∧
    (startAutoCloseRoutine sampleParseDuration sampleGetenv sampleRepository "a1" 7100000000
        (tickerTicks 7100000000 500000000 (fun _ => []) (fun _ => true) 1 4 ++
          ⟨[], 9600000000, false⟩ :: [⟨[], 10100000000, false⟩])).ar.Collection.docs.map
        (fun d => (d.Id, d.Status)) =
      [("a1", AuctionStatus.Completed), ("a2", AuctionStatus.Active)] :=
  ⟨(startAutoCloseRoutine_returns_after_first_attempt sampleParseDuration sampleGetenv
      sampleRepository "a1" 7100000000
      (tickerTicks 7100000000 500000000 (fun _ => []) (fun _ => true) 1 4)
      ⟨[], 9600000000, true⟩ [⟨[], 10100000000, false⟩]
      (by decide) (by decide) (by decide)).1,
    (startAutoCloseRoutine_returns_after_first_attempt sampleParseDuration sampleGetenv
      sampleRepository "a1" 7100000000
      (tickerTicks 7100000000 500000000 (fun _ => []) (fun _ => true) 1 4)
      ⟨[], 9600000000, true⟩ [⟨[], 10100000000, false⟩]
      (by decide) (by decide) (by decide)).2.1,
    by decide,
    (startAutoCloseRoutine_returns_after_first_attempt sampleParseDuration sampleGetenv
      sampleRepository "a1" 7100000000
      (tickerTicks 7100000000 500000000 (fun _ => []) (fun _ => true) 1 4)
      ⟨[], 9600000000, false⟩ [⟨[], 10100000000, false⟩]
      (by decide) (by decide) (by decide)).2.2.2.2.2.1 rfl
      (auctionEntityMongo sampleAuction) (by decide),
    by decide⟩

/-- C5: when the insert fails `CreateAuction` returns an internal error and starts no
watcher; when it succeeds `CreateAuction` returns no error and starts exactly one watcher,
for the auction's identifier and its in-memory timestamp. A watcher is started if and only if
the insert succeeded. -/
theorem CreateAuction_starts_watcher_iff_inserted
    (ar : AuctionRepository) (fault : Bool) (auctionEntity : Auction) :
    (∀ e, ar.Collection.InsertOne fault (auctionEntityMongo auctionEntity) = Except.error e →
      (CreateAuction ar fault auctionEntity).err =
          some (NewInternalServerError "Error trying to insert auction") ∧
        (CreateAuction ar fault auctionEntity).spawned = [] ∧
        (CreateAuction ar fault auctionEntity).ar = ar) ∧
    (∀ c, ar.Collection.InsertOne fault (auctionEntityMongo auctionEntity) = Except.ok c →
      (CreateAuction ar fault auctionEntity).err = none ∧
        (CreateAuction ar fault auctionEntity).spawned =
          [⟨auctionEntity.Id, auctionEntity.Timestamp⟩] ∧
        (CreateAuction ar fault auctionEntity).ar = { ar with Collection := c }) ∧
    ((CreateAuction ar fault auctionEntity).spawned ≠ [] ↔
      ∃ c, ar.Collection.InsertOne fault (auctionEntityMongo auctionEntity) = Except.ok c) ∧
    ((CreateAuction ar fault auctionEntity).err = none ↔
      ∃ c, ar.Collection.InsertOne fault (auctionEntityMongo auctionEntity) = Except.ok c) := by
  unfold CreateAuction
  cases h : ar.Collection.InsertOne fault (auctionEntityMongo auctionEntity) with
  | error e => simp
  | ok c => simp

/-- C5, on the sample repository: creating an auction under a fresh identifier starts one
watcher for it, creating the stored auction again fails on its key and starts none. -/
theorem CreateAuction_starts_watcher_iff_inserted_witness :
    (CreateAuction sampleRepository false { sampleAuction with Id := "a3" }).spawned =
      [⟨"a3", 7100000000⟩] ∧
    (CreateAuction sampleRepository false sampleAuction).spawned = [] ∧
    ((CreateAuction sampleRepository false sampleAuction).err = none ↔
      ∃ c, sampleRepository.Collection.InsertOne false (auctionEntityMongo sampleAuction) =
        Except.ok c) :=
  ⟨by decide, by decide,
    (CreateAuction_starts_watcher_iff_inserted sampleRepository false sampleAuction).2.2.2⟩

/-- C7: a successful `UpdateAuctionStatus(id, status)` on a store with unique keys changes
only the status of the record keyed by `id`, setting it to `status`: no record is added or
removed, the record's identifier, product name, category, description, condition and
timestamp are unchanged, and every record with another identifier is unchanged. -/
theorem UpdateAuctionStatus_changes_only_status
    (ar : AuctionRepository) (fault : Bool) (id : String) (status : AuctionStatus)
    (hkeys : ar.Collection.keys.Nodup)
    (hok : (UpdateAuctionStatus ar fault id status).1 = none) :
    (UpdateAuctionStatus ar fault id status).2.Collection.docs =
      ar.Collection.docs.map (fun d => if d.Id = id then { d with Status := status } else d) ∧
    (UpdateAuctionStatus ar fault id status).2.Collection.docs.length =
      ar.Collection.docs.length ∧
    (UpdateAuctionStatus ar fault id status).2.Collection.keys = ar.Collection.keys ∧
    ∀ (i : Nat) (d : AuctionEntityMongo), ar.Collection.docs[i]? = some d →
      ∃ d2, (UpdateAuctionStatus ar fault id status).2.Collection.docs[i]? = some d2 ∧
        d2.Id = d.Id ∧ d2.ProductName = d.ProductName ∧ d2.Category = d.Category ∧
        d2.Description = d.Description ∧ d2.Condition = d.Condition ∧
        d2.Timestamp = d.Timestamp ∧
        (d.Id = id → d2.Status = status) ∧ (d.Id ≠ id → d2 = d) := by
  have hf : fault = false := by
    cases fault
    · rfl
    · simp [UpdateAuctionStatus_err] at hok
  subst hf
  have hmap : (UpdateAuctionStatus ar false id status).2.Collection.docs =
      ar.Collection.docs.map
        (fun d => if d.Id = id then { d with Status := status } else d) := by
    simp only [UpdateAuctionStatus, Collection.UpdateOne]
    exact setStatus_eq_map id status _ hkeys
  refine ⟨hmap, by rw [hmap, List.length_map], ?_, ?_⟩
  · simp only [UpdateAuctionStatus, Collection.UpdateOne, Collection.keys]
    exact setStatus_keys id status _
  intro i d hd
  rw [hmap, List.getElem?_map, hd]
  by_cases h : d.Id = id
  · simp [h]
  · simp [h]

/-- C7, on the sample repository: completing `a1` gives the two stored records with only the
status of `a1` changed. -/
theorem UpdateAuctionStatus_changes_only_status_witness :
    (UpdateAuctionStatus sampleRepository false "a1" AuctionStatus.Completed).2.Collection.docs =
      [{ auctionEntityMongo sampleAuction with Status := AuctionStatus.Completed },
        { Id := "a2", ProductName := "Other", Category := "Test Category",
          Description := "Other Description", Condition := ProductCondition.Used,
          Status := AuctionStatus.Active, Timestamp := 3 }] ∧
    (UpdateAuctionStatus sampleRepository false "a1" AuctionStatus.Completed).2.Collection.docs =
      sampleRepository.Collection.docs.map
        (fun d => if d.Id = "a1" then { d with Status := AuctionStatus.Completed } else d) :=
  ⟨by decide,
    (UpdateAuctionStatus_changes_only_status sampleRepository false "a1"
      AuctionStatus.Completed (by decide) (by decide)).1⟩

/-- C8: the record `CreateAuction` hands to the store has as timestamp the entity's creation
instant in whole seconds since the Unix epoch, the part below a second dropped, and has the
entity's identifier, product name, category, description, condition and status unchanged. -/
theorem CreateAuction_record_fields (auctionEntity : Auction) :
    (auctionEntityMongo auctionEntity).Timestamp = Time.Unix auctionEntity.Timestamp ∧
    (auctionEntityMongo auctionEntity).Timestamp * 1000000000 ≤ auctionEntity.Timestamp ∧
    auctionEntity.Timestamp < ((auctionEntityMongo auctionEntity).Timestamp + 1) * 1000000000 ∧
    (auctionEntityMongo auctionEntity).Id = auctionEntity.Id ∧
    (auctionEntityMongo auctionEntity).ProductName = auctionEntity.ProductName ∧
    (auctionEntityMongo auctionEntity).Category = auctionEntity.Category ∧
    (auctionEntityMongo auctionEntity).Description = auctionEntity.Description ∧
    (auctionEntityMongo auctionEntity).Condition = auctionEntity.Condition ∧
    (auctionEntityMongo auctionEntity).Status = auctionEntity.Status ∧
    ∀ (ar : AuctionRepository) (fault : Bool),
      (CreateAuction ar fault auctionEntity).err = none →
        (CreateAuction ar fault auctionEntity).ar.Collection.docs =
          ar.Collection.docs ++ [auctionEntityMongo auctionEntity] := by
  have hpos : (0 : Int) < 1000000000 := by norm_num
  refine ⟨rfl, ?_, ?_, rfl, rfl, rfl, rfl, rfl, rfl, ?_⟩
  · exact Int.ediv_mul_le _ (ne_of_gt hpos)
  · exact Int.lt_ediv_add_one_mul_self _ hpos
  · intro ar fault h
    unfold CreateAuction at h ⊢
    unfold Collection.InsertOne at h ⊢
    by_cases hf : fault = true
    · simp [hf] at h
    · by_cases hk : (auctionEntityMongo auctionEntity).Id ∈ ar.Collection.keys
      · simp [hf, hk] at h
      · simp [hf, hk]

/-- C8, on the sample auction, created 7.1 s after the epoch: the stored timestamp is 7, and
the record is the one appended to the collection. -/
theorem CreateAuction_record_fields_witness :
    (auctionEntityMongo sampleAuction).Timestamp = 7 ∧
    (auctionEntityMongo { sampleAuction with Timestamp := -1 }).Timestamp = -1 ∧
    (CreateAuction (NewAuctionRepository ⟨[]⟩) false sampleAuction).ar.Collection.docs =
      [] ++ [auctionEntityMongo sampleAuction] :=
  ⟨by decide, by decide,
    (CreateAuction_record_fields sampleAuction).2.2.2.2.2.2.2.2.2
      (NewAuctionRepository ⟨[]⟩) false (by decide)⟩

/-- C9, as stated, fails: on the sample run with a store that rejects the update, the
watcher's call returns an error and the polling loop has returned. -/
theorem startAutoCloseRoutine_failed_update_returns :
    (∃ c ∈ (startAutoCloseRoutine sampleParseDuration sampleGetenv sampleRepository "a1"
        7100000000 (sampleTicks true)).calls, c.err ≠ none) ∧
    (startAutoCloseRoutine sampleParseDuration sampleGetenv sampleRepository "a1"
        7100000000 (sampleTicks true)).returned = true ∧
    (startAutoCloseRoutine sampleParseDuration sampleGetenv sampleRepository "a1"
        7100000000 (sampleTicks true)).checks = 5 := by
  decide

/-- C9, amended: a watcher whose ticker was created keeps polling exactly as long as no check
has found the current time after the deadline, and until then it has called nothing and
written nothing. At the first check that finds the deadline passed it makes its single call of
`UpdateAuctionStatus`, for its auction with `Completed`, and its loop returns, also when that
call fails: a failed call is not repeated and leaves the store as the other callers left it,
a successful one leaves the stored auction completed. -/
theorem startAutoCloseRoutine_returns_iff_deadline_seen
    (ParseDuration : String → Option Duration) (Getenv : String → String)
    (ar : AuctionRepository) (auctionId : String) (timestamp : Time) (ticks : List Tick)
    (hinterval : 0 < getAuctionCheckInterval ParseDuration Getenv) :
    ((startAutoCloseRoutine ParseDuration Getenv ar auctionId timestamp ticks).returned = false ↔
      ∀ t ∈ ticks, t.now ≤ timestamp + getAuctionDuration ParseDuration Getenv) ∧
    ((startAutoCloseRoutine ParseDuration Getenv ar auctionId timestamp ticks).returned = true ↔
      ∃ t ∈ ticks, timestamp + getAuctionDuration ParseDuration Getenv < t.now) ∧
    ((∃ c ∈ (startAutoCloseRoutine ParseDuration Getenv ar auctionId timestamp ticks).calls,
        c.err ≠ none) →
      (startAutoCloseRoutine ParseDuration Getenv ar auctionId timestamp ticks).returned = true) ∧
    ((startAutoCloseRoutine ParseDuration Getenv ar auctionId timestamp ticks).calls ≠ [] →
      (startAutoCloseRoutine ParseDuration Getenv ar auctionId timestamp ticks).returned =
        true) ∧
    ((startAutoCloseRoutine ParseDuration Getenv ar auctionId timestamp ticks).returned = false →
      (startAutoCloseRoutine ParseDuration Getenv ar auctionId timestamp ticks).calls = [] ∧
      (startAutoCloseRoutine ParseDuration Getenv ar auctionId timestamp ticks).checks =
        ticks.length ∧
      (startAutoCloseRoutine ParseDuration Getenv ar auctionId timestamp ticks).ar =
        waitThrough ar ticks) ∧
    ((startAutoCloseRoutine ParseDuration Getenv ar auctionId timestamp ticks).returned = true →
      ∃ (pre : List Tick) (t : Tick) (rest : List Tick), ticks = pre ++ t :: rest ∧
        (∀ p ∈ pre, p.now ≤ timestamp + getAuctionDuration ParseDuration Getenv) ∧
        timestamp + getAuctionDuration ParseDuration Getenv < t.now ∧
        (startAutoCloseRoutine ParseDuration Getenv ar auctionId timestamp ticks).calls =
          [⟨t.now, auctionId, AuctionStatus.Completed,
            if t.fault then
              some (NewInternalServerError "Error trying to update auction status")
            else none⟩] ∧
        (startAutoCloseRoutine ParseDuration Getenv ar auctionId timestamp ticks).checks =
          pre.length + 1 ∧
        (startAutoCloseRoutine ParseDuration Getenv ar auctionId timestamp ticks).ar =
          (UpdateAuctionStatus (applyOthers (waitThrough ar pre) t.others) t.fault auctionId
            AuctionStatus.Completed).2 ∧
        (t.fault = true →
          (startAutoCloseRoutine ParseDuration Getenv ar auctionId timestamp ticks).ar =
            applyOthers (waitThrough ar pre) t.others) ∧
        (t.fault = false → ∀ d0, ar.Collection.find auctionId = some d0 →
          (startAutoCloseRoutine ParseDuration Getenv ar auctionId timestamp
              ticks).ar.Collection.find auctionId =
            some { d0 with Status := AuctionStatus.Completed })) := by
  have h := not_le.2 hinterval
  simp only [startAutoCloseRoutine, h, if_false, Time.Add]
  have hret := autoCloseLoop_returned auctionId
    (timestamp + getAuctionDuration ParseDuration Getenv) ar ticks
  have hlen := autoCloseLoop_calls_length auctionId
    (timestamp + getAuctionDuration ParseDuration Getenv) ar ticks
  have hne : (autoCloseLoop auctionId (timestamp + getAuctionDuration ParseDuration Getenv)
      ar ticks).calls ≠ [] →
      (autoCloseLoop auctionId (timestamp + getAuctionDuration ParseDuration Getenv)
        ar ticks).returned = true := by
    intro hc
    by_contra hr
    rw [if_neg hr] at hlen
    exact hc (List.length_eq_zero.1 hlen)
  have hfalse : (autoCloseLoop auctionId (timestamp + getAuctionDuration ParseDuration Getenv)
      ar ticks).returned = false ↔
      ∀ t ∈ ticks, t.now ≤ timestamp + getAuctionDuration ParseDuration Getenv := by
    rw [← Bool.not_eq_true, hret]
    push_neg
    rfl
  refine ⟨hfalse, hret, ?_, hne, ?_, ?_⟩
  · rintro ⟨c, hc, _⟩
    exact hne (List.ne_nil_of_mem hc)
  · intro hr
    rw [autoCloseLoop_waiting _ _ _ _ (hfalse.1 hr)]
    exact ⟨rfl, rfl, rfl⟩
  · intro hr
    obtain ⟨pre, t, rest, e, hpre, ht⟩ := exists_first_expired _ ticks (hret.1 hr)
    refine ⟨pre, t, rest, e, hpre, ht, ?_⟩
    rw [e, autoCloseLoop_first_expired _ _ _ pre t rest hpre ht]
    refine ⟨by simp [UpdateAuctionStatus_err], rfl, rfl, ?_, ?_⟩
    · intro hf
      simp only [hf]
      exact UpdateAuctionStatus_fault _ _ _
    · intro hf d0 hd0
      simp only [hf]
      exact UpdateAuctionStatus_completes _ auctionId d0
        (applyOthers_find auctionId d0 t.others _
          (waitThrough_find auctionId d0 pre ar ⟨d0.Status, hd0⟩))

/-- C9, amended, on the sample run with a store that rejects the update: the watcher made one
call, at 9.6 s, which failed; the loop has returned after it and `a1` is still active. With
a store that works the one call succeeds and `a1` is completed. -/
theorem startAutoCloseRoutine_returns_iff_deadline_seen_witness :
    (startAutoCloseRoutine sampleParseDuration sampleGetenv sampleRepository "a1"
        7100000000 (sampleTicks true)).calls =
      [⟨9600000000, "a1", AuctionStatus.Completed,
        some (NewInternalServerError "Error trying to update auction status")⟩] ∧
    ((startAutoCloseRoutine sampleParseDuration sampleGetenv sampleRepository "a1"
        7100000000 (sampleTicks true)).ar.Collection.find "a1").map (fun d => d.Status) =
      some AuctionStatus.Active ∧
    (startAutoCloseRoutine sampleParseDuration sampleGetenv sampleRepository "a1"
        7100000000 (sampleTicks true)).returned = true ∧
    ((startAutoCloseRoutine sampleParseDuration sampleGetenv sampleRepository "a1"
        7100000000 (sampleTicks false)).ar.Collection.find "a1").map (fun d => d.Status) =
      some AuctionStatus.Completed ∧
    (startAutoCloseRoutine sampleParseDuration sampleGetenv sampleRepository "a1"
        7100000000 (sampleTicks false)).calls =
      [⟨9600000000, "a1", AuctionStatus.Completed, none⟩] :=
  ⟨by decide, by decide,
    (startAutoCloseRoutine_returns_iff_deadline_seen sampleParseDuration sampleGetenv
      sampleRepository "a1" 7100000000 (sampleTicks true) (by decide)).2.2.1
      ⟨⟨9600000000, "a1", AuctionStatus.Completed,
        some (NewInternalServerError "Error trying to update auction status")⟩,
        by decide, by decide⟩,
    by decide, by decide⟩

/-- C10: calls of `UpdateAuctionStatus` on one repository exclude each other: in every state
reached by concurrent calls, under every schedule, at most one call is between its `Lock` and
its `Unlock`, whatever the identifiers. No call is dropped: while a call has not returned
some goroutine can move, every move uses up one of finitely many steps, every state can be
run to the end, and at the end a call that alone targets a stored identifier, on a store
that does not fail, has returned `nil` and the record carries its status. `CreateAuction`
does not take the lock: its step can be taken whether or not `mu` is held and leaves `mu` as
it is. -/
theorem UpdateAuctionStatus_calls_exclusive
    (auctions : Collection) (calls : List Call) (schedule : List Nat) :
    holders ((System.init auctions calls).run schedule).threads ≤ 1 ∧
    (holders ((System.init auctions calls).run schedule).threads = 1 ↔
      ((System.init auctions calls).run schedule).ar.mu = true) ∧
    (0 < remaining ((System.init auctions calls).run schedule).threads →
      ∃ i, (((System.init auctions calls).run schedule).step i).isSome = true) ∧
    remaining ((System.init auctions calls).run schedule).threads +
        (System.init auctions calls).moves schedule =
      remaining (System.init auctions calls).threads ∧
    (∃ more, remaining ((System.init auctions calls).run (schedule ++ more)).threads = 0) ∧
    (∀ (j : Nat) (id : String) (status : AuctionStatus) (d0 : AuctionEntityMongo),
      calls[j]? = some (Call.update id status false) →
      (∀ (i : Nat) id2 status2 fault2, i ≠ j →
        calls[i]? = some (Call.update id2 status2 fault2) → id2 ≠ id) →
      auctions.find id = some d0 →
      remaining ((System.init auctions calls).run schedule).threads = 0 →
      ((System.init auctions calls).run schedule).threads[j]? =
          some ⟨Call.update id status false, Pc.done none⟩ ∧
        ((System.init auctions calls).run schedule).ar.Collection.find id =
          some { d0 with Status := status }) ∧
    ∀ (ar : AuctionRepository) (auctionEntity : Auction) (fault : Bool),
      ∃ r, Thread.step ar ⟨Call.create auctionEntity fault, Pc.start⟩ = some r ∧
        r.1.mu = ar.mu ∧ r.1 = (CreateAuction ar fault auctionEntity).ar := by
  have hinv := System.lockInv_run auctions calls schedule
  refine ⟨?_, ?_, ?_, ?_, ?_, ?_, ?_⟩
  · unfold System.lockInv at hinv
    rw [hinv]
    split <;> simp
  · unfold System.lockInv at hinv
    rw [hinv]
    by_cases hm : ((System.init auctions calls).run schedule).ar.mu = true
    · simp [hm]
    · simp [hm]
  · exact System.progress _ hinv
  · exact System.remaining_run schedule _
  · obtain ⟨more, hmore⟩ := System.completes _ _ hinv rfl
    exact ⟨more, by rw [System.run_append]; exact hmore⟩
  · intro j id status d0 hj hother hfind hrem
    have hK : ((System.init auctions calls).run schedule).appliedInv j id status d0 :=
      System.run_induction (System.appliedInv j id status d0)
        (System.appliedInv_step j id status d0) schedule _
        (System.appliedInv_init auctions calls j id status d0 hj hother hfind)
    obtain ⟨⟨pc, hpc, hcase⟩, _⟩ := hK
    have h0 := remaining_zero_of_mem _ j _ hpc hrem
    rcases hcase with ⟨hp | hp, _⟩ | ⟨hp | hp, hf⟩
    · subst hp
      simp [Thread.remaining] at h0
    · subst hp
      simp [Thread.remaining] at h0
    · subst hp
      simp [Thread.remaining] at h0
    · subst hp
      exact ⟨hpc, hf⟩
  · intro ar auctionEntity fault
    exact ⟨_, rfl, CreateAuction_mu ar fault auctionEntity, rfl⟩

/-- C10, on three concurrent calls over the sample repository: while the first call owns the
lock the second waits, and the call creating `a3` goes through; run to the end, `a1` is
completed by the first call. -/
theorem UpdateAuctionStatus_calls_exclusive_witness :
    holders ((System.init sampleRepository.Collection sampleCalls).run [0, 1, 2]).threads = 1 ∧
    ((System.init sampleRepository.Collection sampleCalls).run [0, 1, 2]).threads.map
        (fun t => t.pc) = [Pc.locked, Pc.start, Pc.done none] ∧
    remaining ((System.init sampleRepository.Collection sampleCalls).run
      [0, 1, 2, 0, 1, 0, 1, 1, 1]).threads = 0 ∧
    ((System.init sampleRepository.Collection sampleCalls).run
        [0, 1, 2, 0, 1, 0, 1, 1, 1]).threads[0]? =
          some ⟨Call.update "a1" AuctionStatus.Completed false, Pc.done none⟩ ∧
    ((System.init sampleRepository.Collection sampleCalls).run
        [0, 1, 2, 0, 1, 0, 1, 1, 1]).ar.Collection.find "a1" =
          some { auctionEntityMongo sampleAuction with Status := AuctionStatus.Completed } :=
  ⟨by decide, by decide, by decide,
    (UpdateAuctionStatus_calls_exclusive sampleRepository.Collection sampleCalls
      [0, 1, 2, 0, 1, 0, 1, 1, 1]).2.2.2.2.2.1 0 "a1" AuctionStatus.Completed
      (auctionEntityMongo sampleAuction) (by decide)
      (by
        intro i id2 status2 fault2 hi hc
        match i, hi, hc with
        | 0, hi, _ => exact absurd rfl hi
        | 1, _, hc =>
          simp only [sampleCalls, List.getElem?_cons_succ, List.getElem?_cons_zero,
            Option.some.injEq, Call.update.injEq] at hc
          rw [← hc.1]
          decide
        | 2, _, hc => simp [sampleCalls] at hc
        | k + 3, _, hc => simp [sampleCalls] at hc)
      (by decide) (by decide)⟩

/-- C11: the watcher makes no deadline check when it starts: before the first tick it has
made no check, issued no update and written nothing, and each check is triggered by a tick.
With the ticks of a ticker started at `S` with interval `C > 0`, no update is issued before
`S + C`, whatever the deadline; and when the deadline lies before the first tick, in
particular when it had already passed at `S` (a duration of zero or less, or a timestamp in
the past), the update is made at the first tick, at `S + C`, by the first check: the
repository is the one that call of `UpdateAuctionStatus` returns, with the stored auction
completed when the call succeeded and the store as the other callers left it when it
failed. -/
theorem startAutoCloseRoutine_first_check_at_first_tick
    (ParseDuration : String → Option Duration) (Getenv : String → String)
    (ar : AuctionRepository) (auctionId : String) (timestamp start : Time)
    (others : Nat → List StatusUpdate) (fault : Nat → Bool) (n : Nat)
    (hinterval : 0 < getAuctionCheckInterval ParseDuration Getenv) :
    (startAutoCloseRoutine ParseDuration Getenv ar auctionId timestamp []).checks = 0 ∧
    (startAutoCloseRoutine ParseDuration Getenv ar auctionId timestamp []).calls = [] ∧
    (startAutoCloseRoutine ParseDuration Getenv ar auctionId timestamp []).returned = false ∧
    (startAutoCloseRoutine ParseDuration Getenv ar auctionId timestamp
        (tickerTicks start (getAuctionCheckInterval ParseDuration Getenv) others fault 1
          n)).checks ≤ n ∧
    (∀ c ∈ (startAutoCloseRoutine ParseDuration Getenv ar auctionId timestamp
        (tickerTicks start (getAuctionCheckInterval ParseDuration Getenv) others fault 1
          n)).calls,
      start + getAuctionCheckInterval ParseDuration Getenv ≤ c.time) ∧
    (timestamp + getAuctionDuration ParseDuration Getenv <
        start + getAuctionCheckInterval ParseDuration Getenv → 1 ≤ n →
      (startAutoCloseRoutine ParseDuration Getenv ar auctionId timestamp
          (tickerTicks start (getAuctionCheckInterval ParseDuration Getenv) others fault 1
            n)).calls =
        [⟨start + getAuctionCheckInterval ParseDuration Getenv, auctionId,
          AuctionStatus.Completed,
          if fault 1 then some (NewInternalServerError "Error trying to update auction status")
          else none⟩] ∧
      (startAutoCloseRoutine ParseDuration Getenv ar auctionId timestamp
          (tickerTicks start (getAuctionCheckInterval ParseDuration Getenv) others fault 1
            n)).checks = 1 ∧
      (startAutoCloseRoutine ParseDuration Getenv ar auctionId timestamp
          (tickerTicks start (getAuctionCheckInterval ParseDuration Getenv) others fault 1
            n)).returned = true) ∧
    (startAutoCloseRoutine ParseDuration Getenv ar auctionId timestamp []).ar = ar ∧
    (timestamp + getAuctionDuration ParseDuration Getenv <
        start + getAuctionCheckInterval ParseDuration Getenv → 1 ≤ n →
      (startAutoCloseRoutine ParseDuration Getenv ar auctionId timestamp
          (tickerTicks start (getAuctionCheckInterval ParseDuration Getenv) others fault 1
            n)).ar =
        (UpdateAuctionStatus (applyOthers ar (others 1)) (fault 1) auctionId
          AuctionStatus.Completed).2 ∧
      (fault 1 = false → ∀ d0, ar.Collection.find auctionId = some d0 →
        (startAutoCloseRoutine ParseDuration Getenv ar auctionId timestamp
            (tickerTicks start (getAuctionCheckInterval ParseDuration Getenv) others fault 1
              n)).ar.Collection.find auctionId =
          some { d0 with Status := AuctionStatus.Completed }) ∧
      (fault 1 = true →
        (startAutoCloseRoutine ParseDuration Getenv ar auctionId timestamp
            (tickerTicks start (getAuctionCheckInterval ParseDuration Getenv) others fault 1
              n)).ar = applyOthers ar (others 1))) := by
  have h := not_le.2 hinterval
  simp only [startAutoCloseRoutine, h, if_false, Time.Add]
  have hfirst : timestamp + getAuctionDuration ParseDuration Getenv <
      start + getAuctionCheckInterval ParseDuration Getenv →
      Time.After (start + ((1 : Nat) : Int) * getAuctionCheckInterval ParseDuration Getenv)
        (timestamp + getAuctionDuration ParseDuration Getenv) = true := by
    intro hpast
    rw [Time.After_iff]
    push_cast
    linarith
  refine ⟨by simp [autoCloseLoop], by simp [autoCloseLoop], by simp [autoCloseLoop],
    ?_, ?_, ?_, by simp [autoCloseLoop], ?_⟩
  · have h1 := autoCloseLoop_checks_le auctionId
      (timestamp + getAuctionDuration ParseDuration Getenv) ar
      (tickerTicks start (getAuctionCheckInterval ParseDuration Getenv) others fault 1 n)
    rw [tickerTicks_length] at h1
    exact h1
  · intro c hc
    obtain ⟨_, _, t, ht, h1, _⟩ := autoCloseLoop_calls _ _ _ _ c hc
    obtain ⟨k, k1, _, k3⟩ := mem_tickerTicks _ _ _ _ _ _ t ht
    have hk : (1 : Int) ≤ (k : Int) := by exact_mod_cast k1
    have hmul : getAuctionCheckInterval ParseDuration Getenv ≤
        (k : Int) * getAuctionCheckInterval ParseDuration Getenv :=
      le_mul_of_one_le_left (le_of_lt hinterval) hk
    rw [← h1, k3]
    linarith
  · intro hpast hn
    obtain ⟨m, rfl⟩ : ∃ m, n = m + 1 := ⟨n - 1, by omega⟩
    simp only [tickerTicks, autoCloseLoop, hfirst hpast, if_true, UpdateAuctionStatus_err]
    simp
  · intro hpast hn
    obtain ⟨m, rfl⟩ : ∃ m, n = m + 1 := ⟨n - 1, by omega⟩
    simp only [tickerTicks, autoCloseLoop, hfirst hpast, if_true]
    refine ⟨trivial, ?_, ?_⟩
    · intro hf d0 hd0
      simp only [hf]
      exact UpdateAuctionStatus_completes _ auctionId d0
        (applyOthers_find auctionId d0 (others 1) ar ⟨d0.Status, hd0⟩)
    · intro hf
      simp only [hf]
      exact UpdateAuctionStatus_fault _ _ _

/-- C11, on an auction created and started at 7.1 s whose duration is minus one second, with
an interval of half a second: the deadline of 6.1 s has passed at the start, and the update
is made at the first tick, at 7.6 s, not before, and leaves `a1` completed. -/
theorem startAutoCloseRoutine_first_check_at_first_tick_witness :
    (startAutoCloseRoutine signedParseDuration expiredGetenv sampleRepository "a1" 7100000000
        []).checks = 0 ∧
    (startAutoCloseRoutine signedParseDuration expiredGetenv sampleRepository "a1" 7100000000
        (tickerTicks 7100000000 (getAuctionCheckInterval signedParseDuration expiredGetenv)
          (fun _ => []) (fun _ => false) 1 3)).calls =
      [⟨7100000000 + getAuctionCheckInterval signedParseDuration expiredGetenv, "a1",
        AuctionStatus.Completed,
        if (fun _ => false) 1 then
          some (NewInternalServerError "Error trying to update auction status")
        else none⟩] ∧
    7100000000 + getAuctionCheckInterval signedParseDuration expiredGetenv = 7600000000 ∧
    (startAutoCloseRoutine signedParseDuration expiredGetenv sampleRepository "a1" 7100000000
        (tickerTicks 7100000000 (getAuctionCheckInterval signedParseDuration expiredGetenv)
          (fun _ => []) (fun _ => false) 1 3)).ar.Collection.find "a1" =
      some { auctionEntityMongo sampleAuction with Status := AuctionStatus.Completed } ∧
    (startAutoCloseRoutine signedParseDuration expiredGetenv sampleRepository "a1" 7100000000
        (tickerTicks 7100000000 (getAuctionCheckInterval signedParseDuration expiredGetenv)
          (fun _ => []) (fun _ => false) 1 3)).ar.Collection.docs.map
        (fun d => (d.Id, d.Status)) =
      [("a1", AuctionStatus.Completed), ("a2", AuctionStatus.Active)] ∧
    (startAutoCloseRoutine signedParseDuration expiredGetenv sampleRepository "a1" 7100000000
        []).ar = sampleRepository :=
  ⟨(startAutoCloseRoutine_first_check_at_first_tick signedParseDuration expiredGetenv
      sampleRepository "a1" 7100000000 7100000000 (fun _ => []) (fun _ => false) 3
      (by decide)).1,
    ((startAutoCloseRoutine_first_check_at_first_tick signedParseDuration expiredGetenv
      sampleRepository "a1" 7100000000 7100000000 (fun _ => []) (fun _ => false) 3
      (by decide)).2.2.2.2.2.1 (by decide) (by decide)).1,
    by decide,
    ((startAutoCloseRoutine_first_check_at_first_tick signedParseDuration expiredGetenv
      sampleRepository "a1" 7100000000 7100000000 (fun _ => []) (fun _ => false) 3
      (by decide)).2.2.2.2.2.2.2 (by decide) (by decide)).2.1 rfl
      (auctionEntityMongo sampleAuction) (by decide),
    by decide, by decide⟩

/-- C12: `getAuctionCheckInterval` makes no positivity check: when `AUCTION_CHECK_INTERVAL`
parses to a duration `d ≤ 0` it returns `d`, not the default of one minute, so the interval
handed to `time.NewTicker` is not positive; the ticker's precondition fails and the watcher
stops there, before any check or update, leaving the repository as it was. The routine
stops in `time.NewTicker` exactly when the interval read is not positive. -/
theorem getAuctionCheckInterval_not_positive
    (ParseDuration : String → Option Duration) (Getenv : String → String)
    (ar : AuctionRepository) (auctionId : String) (timestamp : Time) (ticks : List Tick)
    (d : Duration)
    (hparse : ParseDuration (Getenv "AUCTION_CHECK_INTERVAL") = some d) (hd : d ≤ 0) :
    getAuctionCheckInterval ParseDuration Getenv = d ∧
    getAuctionCheckInterval ParseDuration Getenv ≠ 60000000000 ∧
    ¬ 0 < getAuctionCheckInterval ParseDuration Getenv ∧
    (startAutoCloseRoutine ParseDuration Getenv ar auctionId timestamp ticks).panicked = true ∧
    (startAutoCloseRoutine ParseDuration Getenv ar auctionId timestamp ticks).checks = 0 ∧
    (startAutoCloseRoutine ParseDuration Getenv ar auctionId timestamp ticks).calls = [] ∧
    (startAutoCloseRoutine ParseDuration Getenv ar auctionId timestamp ticks).returned = false ∧
    (startAutoCloseRoutine ParseDuration Getenv ar auctionId timestamp ticks).ar = ar ∧
    ∀ (Getenv2 : String → String) (ticks2 : List Tick),
      ((startAutoCloseRoutine ParseDuration Getenv2 ar auctionId timestamp ticks2).panicked =
          true ↔
        getAuctionCheckInterval ParseDuration Getenv2 ≤ 0) := by
  have hval : getAuctionCheckInterval ParseDuration Getenv = d := by
    simp [getAuctionCheckInterval, hparse]
  have hle : getAuctionCheckInterval ParseDuration Getenv ≤ 0 := hval ▸ hd
  refine ⟨hval, ?_, not_lt.2 hle, ?_, ?_, ?_, ?_, ?_, ?_⟩
  · intro h
    rw [h] at hle
    exact absurd hle (by norm_num)
  · simp [startAutoCloseRoutine, hle]
  · simp [startAutoCloseRoutine, hle]
  · simp [startAutoCloseRoutine, hle]
  · simp [startAutoCloseRoutine, hle]
  · simp [startAutoCloseRoutine, hle]
  · intro Getenv2 ticks2
    by_cases h2 : getAuctionCheckInterval ParseDuration Getenv2 ≤ 0
    · simp [startAutoCloseRoutine, h2]
    · simp only [startAutoCloseRoutine, h2, if_false, iff_false]
      rw [autoCloseLoop_panicked]
      exact Bool.false_ne_true

/-- C12, on the values `-1s` and `0s`: the interval read is minus one second, not one minute,
and the watcher of the sample auction stops before its first check although the ticks reach
past the deadline; with `0s` the interval read is zero. -/
theorem getAuctionCheckInterval_not_positive_witness :
    getAuctionCheckInterval signedParseDuration negativeIntervalGetenv = -1000000000 ∧
    (startAutoCloseRoutine signedParseDuration negativeIntervalGetenv sampleRepository "a1"
        7100000000 (sampleTicks false)).panicked = true ∧
    (startAutoCloseRoutine signedParseDuration negativeIntervalGetenv sampleRepository "a1"
        7100000000 (sampleTicks false)).calls = [] ∧
    getAuctionCheckInterval signedParseDuration zeroIntervalGetenv = 0 ∧
    (startAutoCloseRoutine signedParseDuration zeroIntervalGetenv sampleRepository "a1"
        7100000000 (sampleTicks false)).checks = 0 :=
  ⟨(getAuctionCheckInterval_not_positive signedParseDuration negativeIntervalGetenv
      sampleRepository "a1" 7100000000 (sampleTicks false) (-1000000000)
      (by decide) (by decide)).1,
    (getAuctionCheckInterval_not_positive signedParseDuration negativeIntervalGetenv
      sampleRepository "a1" 7100000000 (sampleTicks false) (-1000000000)
      (by decide) (by decide)).2.2.2.1,
    (getAuctionCheckInterval_not_positive signedParseDuration negativeIntervalGetenv
      sampleRepository "a1" 7100000000 (sampleTicks false) (-1000000000)
      (by decide) (by decide)).2.2.2.2.2.1,
    (getAuctionCheckInterval_not_positive signedParseDuration zeroIntervalGetenv
      sampleRepository "a1" 7100000000 (sampleTicks false) 0
      (by decide) (by decide)).1,
    (getAuctionCheckInterval_not_positive signedParseDuration zeroIntervalGetenv
      sampleRepository "a1" 7100000000 (sampleTicks false) 0
      (by decide) (by decide)).2.2.2.2.1⟩

end Leilao
